import Mathlib

/-!
# Verification of the crime crawler core

A shallow embedding, in Lean 4, of the core components of the `crime`
repository (a crawler for Connecticut judicial court records), together
with proofs about the embedded code:

* `src/distributed_scraper.py` — the `ScrapingCoordinator` SQLite lease
  ledger (`initialize_pages`, `register_worker`, `get_next_page`,
  `mark_page_complete`).  The SQLite table of work items is embedded as a
  list of `WorkItem` records; each SQL `UPDATE ... WHERE` is a `List.map`
  guarded by the translated `WHERE` predicate; `BEGIN EXCLUSIVE ... commit
  / rollback` makes each operation a single whole-state function.
* `src/record_parser.py` — the charge-table field mapping and the
  reconciliation of the "Modified Sentence Information" rows against the
  main charge table (`parse_conviction_charges`,
  `_parse_charges_from_malformed_table`).
* `src/checkpoint.py` — the JSON checkpoint (`load_checkpoint`,
  `save_checkpoint`) and the checkpointed traversal loop
  (`get_records_with_checkpoint`).
* `src/docket.py` — the pagination traversal loop (`Search.get_records`)
  and the per-record fetch retry loop (`Record.get`).

Machine integers do not occur (Python ints are unbounded); timestamps are
modelled as natural numbers counting minutes, so SQLite's
`datetime(assigned_at, '+30 minutes') < datetime('now')` becomes
`a + 30 < now`.
-/

namespace Crime

/-! ## Coordinator data model (`distributed_scraper.py`)

The `pages` table: `(search_type, page_number, status, worker_id,
assigned_at, completed_at, retry_count)` with a UNIQUE constraint on
`(search_type, page_number)`.  The `status` column holds one of the four
string values `'pending' | 'assigned' | 'completed' | 'failed'`. -/

inductive Status where
  | pending
  | assigned
  | completed
  | failed
deriving DecidableEq, Repr

structure WorkItem where
  searchType : String
  pageNumber : Nat
  status : Status
  workerId : Option String
  assignedAt : Option Nat
  completedAt : Option Nat
  retryCount : Nat
deriving DecidableEq, Repr

/-- The `workers` table: `(worker_id, hostname, last_heartbeat,
pages_completed, status)`. -/
structure WorkerRow where
  workerId : String
  hostname : String
  lastHeartbeat : Nat
  pagesCompleted : Nat
  wstatus : String
deriving DecidableEq, Repr

/-- The whole coordinator SQLite database. -/
structure CoordState where
  pages : List WorkItem
  workers : List WorkerRow
deriving DecidableEq, Repr

/-- A fresh pending row, as inserted by `initialize_pages`
(`INSERT OR IGNORE INTO pages (search_type, page_number) VALUES (?, ?)`
with the column defaults `status='pending'`, `retry_count=0`, NULLs). -/
def newItem (cat : String) (p : Nat) : WorkItem :=
  { searchType := cat, pageNumber := p, status := .pending,
    workerId := none, assignedAt := none, completedAt := none, retryCount := 0 }

/-- `ScrapingCoordinator.initialize_pages`: insert pending rows for pages
`1..total` only when `SELECT COUNT(*) FROM pages WHERE search_type = ?`
returns `0`. -/
def initializePages (st : CoordState) (cat : String) (total : Nat) : CoordState :=
  if st.pages.any (fun it => it.searchType = cat) then st
  else { st with pages := st.pages ++ (List.range' 1 total).map (newItem cat) }

/-- `ScrapingCoordinator.register_worker`: `INSERT OR REPLACE INTO workers
(worker_id, hostname, last_heartbeat, status) VALUES (?, ?, now, 'active')`.
SQLite's `OR REPLACE` deletes any row with the same primary key and inserts
a fresh row, so `pages_completed` falls back to its column default `0`. -/
def registerWorker (st : CoordState) (w host : String) (now : Nat) : CoordState :=
  { st with workers := st.workers.filter (fun wk => wk.workerId ≠ w) ++
      [{ workerId := w, hostname := host, lastHeartbeat := now,
         pagesCompleted := 0, wstatus := "active" }] }

/-- The `WHERE` clause of the lease-reclamation `UPDATE` in
`get_next_page`: `search_type = ? AND status = 'assigned' AND
datetime(assigned_at, '+30 minutes') < datetime('now') AND retry_count < 3`.
A NULL `assigned_at` makes the SQL comparison NULL, hence not satisfied. -/
def shouldReclaim (cat : String) (now : Nat) (it : WorkItem) : Bool :=
  it.searchType = cat && it.status = Status.assigned &&
    (match it.assignedAt with
     | some a => decide (a + 30 < now)
     | none => false) &&
    it.retryCount < 3

/-- The `SET` clause of the reclamation `UPDATE`:
`status = 'pending', worker_id = NULL, retry_count = retry_count + 1`
(`assigned_at` is left untouched). -/
def reclaimItem (it : WorkItem) : WorkItem :=
  { it with status := .pending, workerId := none, retryCount := it.retryCount + 1 }

/-- Step (a) of `get_next_page`: the reclamation `UPDATE` applied to every
row of the table. -/
def reclaimSweep (cat : String) (now : Nat) (ps : List WorkItem) : List WorkItem :=
  ps.map (fun it => if shouldReclaim cat now it then reclaimItem it else it)

/-- `SELECT page_number FROM pages WHERE search_type = ? AND status =
'pending' ORDER BY page_number LIMIT 1`. -/
def nextPendingPage (cat : String) (ps : List WorkItem) : Option Nat :=
  ((ps.filter (fun it => it.searchType = cat && it.status = Status.pending)).map
    (fun it => it.pageNumber)).min?

/-- The assignment `UPDATE` of `get_next_page`: `SET status = 'assigned',
worker_id = ?, assigned_at = now WHERE search_type = ? AND page_number = ?`. -/
def assignPage (cat : String) (p : Nat) (w : String) (now : Nat)
    (ps : List WorkItem) : List WorkItem :=
  ps.map (fun it =>
    if it.searchType = cat && it.pageNumber = p then
      { it with status := .assigned, workerId := some w, assignedAt := some now }
    else it)

/-- `ScrapingCoordinator.get_next_page`: inside `BEGIN EXCLUSIVE`, first the
reclamation sweep, then the lowest-numbered pending row is assigned and the
transaction committed; when no pending row exists the transaction is rolled
back (undoing the sweep as well) and `None` is returned. -/
def getNextPage (st : CoordState) (cat w : String) (now : Nat) :
    Option Nat × CoordState :=
  match nextPendingPage cat (reclaimSweep cat now st.pages) with
  | some p =>
      (some p, { st with pages := assignPage cat p w now (reclaimSweep cat now st.pages) })
  | none => (none, st)

/-- `ScrapingCoordinator.mark_page_complete`: the first `UPDATE` sets
`status='completed', completed_at=now` on the rows matching
`search_type = ? AND page_number = ? AND worker_id = ?`; the second
`UPDATE` unconditionally bumps the worker's `pages_completed` and
refreshes its heartbeat. -/
def markPageComplete (st : CoordState) (cat : String) (p : Nat) (w : String)
    (now : Nat) : CoordState :=
  { pages := st.pages.map (fun it =>
      if it.searchType = cat && it.pageNumber = p && it.workerId = some w then
        { it with status := .completed, completedAt := some now }
      else it),
    workers := st.workers.map (fun wk =>
      if wk.workerId = w then
        { wk with pagesCompleted := wk.pagesCompleted + 1, lastHeartbeat := now }
      else wk) }

/-! Each coordinator operation runs inside a SQLite transaction or a single
SQL statement against the shared database, so an interleaving of concurrent
workers is a sequence of whole-state operations. -/

inductive Op where
  | init (cat : String) (total : Nat)
  | register (w host : String) (now : Nat)
  | getNext (cat w : String) (now : Nat)
  | complete (cat : String) (p : Nat) (w : String) (now : Nat)

def applyOp (st : CoordState) : Op → CoordState
  | .init cat total => initializePages st cat total
  | .register w host now => registerWorker st w host now
  | .getNext cat w now => (getNextPage st cat w now).2
  | .complete cat p w now => markPageComplete st cat p w now

/-- The database created by `init_database`: both tables empty. -/
def initialState : CoordState := { pages := [], workers := [] }

/-- The state reached after a sequence of coordinator operations. -/
def runOps (ops : List Op) : CoordState := ops.foldl applyOp initialState

/-- The UNIQUE key of the `pages` table. -/
def keyOf (it : WorkItem) : String × Nat := (it.searchType, it.pageNumber)

/-- Propositional form of an expired lease:
`datetime(assigned_at, '+30 minutes') < datetime('now')`. -/
def Expired (now : Nat) (it : WorkItem) : Prop :=
  ∃ a, it.assignedAt = some a ∧ a + 30 < now

/-- Propositional form of the reclamation `WHERE` clause. -/
def Reclaimable (cat : String) (now : Nat) (it : WorkItem) : Prop :=
  it.searchType = cat ∧ it.status = .assigned ∧ Expired now it ∧ it.retryCount < 3

instance (now : Nat) (it : WorkItem) : Decidable (Expired now it) := by
  unfold Expired
  cases it.assignedAt <;> simp <;> infer_instance

instance (cat : String) (now : Nat) (it : WorkItem) :
    Decidable (Reclaimable cat now it) := by
  unfold Reclaimable; infer_instance

theorem shouldReclaim_iff (cat : String) (now : Nat) (it : WorkItem) :
    shouldReclaim cat now it = true ↔ Reclaimable cat now it := by
  unfold shouldReclaim Reclaimable Expired
  cases h : it.assignedAt <;>
    simp [h, Bool.and_assoc, and_assoc]

theorem shouldReclaim_searchType (cat : String) (now : Nat) (it : WorkItem)
    (h : shouldReclaim cat now it = true) : it.searchType = cat := by
  rcases (shouldReclaim_iff cat now it).mp h with ⟨h1, -⟩
  exact h1

/-- The single sweep-or-identity function applied to each row by
`reclaimSweep`. -/
theorem reclaimSweep_eq_map (cat : String) (now : Nat) (ps : List WorkItem) :
    reclaimSweep cat now ps =
      ps.map (fun it => if Reclaimable cat now it then reclaimItem it else it) := by
  unfold reclaimSweep
  refine List.map_congr_left (fun it _ => ?_)
  by_cases h : Reclaimable cat now it
  · rw [if_pos ((shouldReclaim_iff cat now it).mpr h), if_pos h]
  · rw [if_neg (fun hb => h ((shouldReclaim_iff cat now it).mp hb)), if_neg h]

/-- C7.  `initialize_pages` inserts pending rows for pages `1..totalPages`
exactly when no row exists for the category, leaves the store untouched
otherwise, and calling it a second time with the same arguments is a no-op:
the resulting state is identical to the state after the first call. -/
theorem initializePages_idempotent (st : CoordState) (cat : String) (total : Nat) :
    ((¬ ∃ it ∈ st.pages, it.searchType = cat) →
      (initializePages st cat total).pages =
        st.pages ++ (List.range' 1 total).map (newItem cat) ∧
      (initializePages st cat total).workers = st.workers) ∧
    ((∃ it ∈ st.pages, it.searchType = cat) → initializePages st cat total = st) ∧
    initializePages (initializePages st cat total) cat total =
      initializePages st cat total := by
  have hany : ∀ ps : List WorkItem,
      ps.any (fun it => it.searchType = cat) = true ↔ ∃ it ∈ ps, it.searchType = cat := by
    intro ps; simp [List.any_eq_true]
  refine ⟨?_, ?_, ?_⟩
  · intro h
    have hfalse : st.pages.any (fun it => it.searchType = cat) = false := by
      rw [Bool.eq_false_iff]; intro hc; exact h ((hany st.pages).mp hc)
    unfold initializePages
    rw [hfalse]
    simp
  · intro h
    have hst : initializePages st cat total = st := by
      unfold initializePages
      rw [(hany st.pages).mpr h]
      simp
    exact hst
  · by_cases h : st.pages.any (fun it => it.searchType = cat) = true
    · have hst : initializePages st cat total = st := by
        unfold initializePages
        rw [h]
        simp
      rw [hst, hst]
    · have hfalse : st.pages.any (fun it => it.searchType = cat) = false :=
        Bool.eq_false_iff.mpr h
      have hfirst : initializePages st cat total =
          { st with pages := st.pages ++ (List.range' 1 total).map (newItem cat) } := by
        unfold initializePages
        rw [hfalse]
        simp
      rcases Nat.eq_zero_or_pos total with htot | htot
      · subst htot
        have hst : initializePages st cat 0 = st := by
          rw [hfirst]
          simp
        rw [hst, hst]
      · have h2 : (st.pages ++ (List.range' 1 total).map (newItem cat)).any
            (fun it => it.searchType = cat) = true := by
          rw [(hany _)]
          refine ⟨newItem cat 1, ?_, rfl⟩
          refine List.mem_append_right _ (List.mem_map.mpr ⟨1, ?_, rfl⟩)
          rw [List.mem_range']
          exact ⟨0, by omega, by omega⟩
        rw [hfirst]
        unfold initializePages
        simp only [h2, if_true]

/-- The store used in the C2 counterexample: an expired assigned work item
in category `"b"` (assigned at minute 0, retryCount 0) next to a pending
item in category `"a"`. -/
def crossCatAssigned : WorkItem :=
  { searchType := "b", pageNumber := 1, status := .assigned,
    workerId := some "x", assignedAt := some 0, completedAt := none, retryCount := 0 }

def crossCatStore : CoordState :=
  { pages := [crossCatAssigned, newItem "a" 1], workers := [] }

/-- C2 counterexample.  The claim asserts that `getNextPage(category,
workerId)` first resets *every* Assigned item older than the lease timeout
with `retryCount < 3` to Pending with `retryCount` incremented.  The code's
reclamation `UPDATE` carries `WHERE search_type = ?`, so an expired
assigned item of a *different* category is not touched: calling
`getNextPage` for category `"a"` at minute 100 succeeds (returns page 1),
yet the category-`"b"` item — Assigned, expired (0 + 30 < 100), and with
`retryCount = 0 < 3` — survives unchanged, still Assigned with
`retryCount = 0`. -/
theorem getNextPage_cross_category_counterexample :
    crossCatAssigned.status = .assigned ∧
    Expired 100 crossCatAssigned ∧
    crossCatAssigned.retryCount < 3 ∧
    crossCatAssigned ∈ crossCatStore.pages ∧
    (getNextPage crossCatStore "a" "w" 100).1 = some 1 ∧
    (getNextPage crossCatStore "a" "w" 100).2.pages =
      [crossCatAssigned,
       { searchType := "a", pageNumber := 1, status := .assigned,
         workerId := some "w", assignedAt := some 100, completedAt := none,
         retryCount := 0 }] := by
  refine ⟨rfl, ⟨0, rfl, by omega⟩, by decide, by decide, ?_, ?_⟩ <;> decide

/-- Full declarative characterization of `get_next_page`, shared by the
theorems below. -/
theorem getNextPage_characterization (st : CoordState) (cat w : String) (now : Nat) :
    (∀ st', getNextPage st cat w now = (none, st') →
      st' = st ∧
      ∀ it ∈ st.pages,
        ¬ (it.searchType = cat ∧ (it.status = .pending ∨ Reclaimable cat now it))) ∧
    (∀ p st', getNextPage st cat w now = (some p, st') →
      (∃ it ∈ st.pages, it.searchType = cat ∧ it.pageNumber = p ∧
        (it.status = .pending ∨ Reclaimable cat now it)) ∧
      (∀ it ∈ st.pages, it.searchType = cat →
        (it.status = .pending ∨ Reclaimable cat now it) → p ≤ it.pageNumber) ∧
      st'.workers = st.workers ∧
      (∀ i : Nat, st'.pages[i]? = (st.pages[i]?).map (fun it =>
        if it.searchType = cat ∧ it.pageNumber = p then
          { it with
            status := .assigned
            workerId := some w
            assignedAt := some now
            retryCount := it.retryCount + (if Reclaimable cat now it then 1 else 0) }
        else if Reclaimable cat now it then
          { it with
            status := .pending
            workerId := none
            retryCount := it.retryCount + 1 }
        else it))) := by
  have hsweep := reclaimSweep_eq_map cat now st.pages
  constructor
  · intro st' h
    unfold getNextPage at h
    cases hmin : nextPendingPage cat (reclaimSweep cat now st.pages) with
    | none =>
      rw [hmin] at h
      simp only [Prod.mk.injEq] at h
      obtain ⟨-, h2⟩ := h
      refine ⟨h2.symm, ?_⟩
      unfold nextPendingPage at hmin
      rw [List.min?_eq_none_iff, List.map_eq_nil_iff, List.filter_eq_nil_iff] at hmin
      intro it hit ⟨hcat, hstat⟩
      rcases hstat with hpend | hrecl
      · have hmem : it ∈ reclaimSweep cat now st.pages := by
          rw [hsweep]
          have : (if Reclaimable cat now it then reclaimItem it else it) = it := by
            rw [if_neg]
            rintro ⟨-, ha, -⟩
            rw [hpend] at ha
            exact absurd ha (by decide)
          rw [← this]
          exact List.mem_map_of_mem _ hit
        have := hmin it hmem
        simp [hcat, hpend] at this
      · have hmem : reclaimItem it ∈ reclaimSweep cat now st.pages := by
          rw [hsweep]
          have hm := List.mem_map_of_mem
            (fun x => if Reclaimable cat now x then reclaimItem x else x) hit
          have hm2 : (if Reclaimable cat now it then reclaimItem it else it) ∈
              List.map (fun x => if Reclaimable cat now x then reclaimItem x else x)
                st.pages := hm
          rw [if_pos hrecl] at hm2
          exact hm2
        have := hmin (reclaimItem it) hmem
        simp [reclaimItem, hcat] at this
    | some q =>
      rw [hmin] at h
      simp at h
  · intro p st' h
    unfold getNextPage at h
    cases hmin : nextPendingPage cat (reclaimSweep cat now st.pages) with
    | none => rw [hmin] at h; simp at h
    | some q =>
      rw [hmin] at h
      simp only [Prod.mk.injEq, Option.some.injEq] at h
      obtain ⟨rfl, rfl⟩ := h
      unfold nextPendingPage at hmin
      rw [List.min?_eq_some_iff'] at hmin
      obtain ⟨hqmem, hqmin⟩ := hmin
      refine ⟨?_, ?_, rfl, ?_⟩
      · rw [List.mem_map] at hqmem
        obtain ⟨it', hit', hpage⟩ := hqmem
        rw [List.mem_filter] at hit'
        obtain ⟨hit'mem, hit'cond⟩ := hit'
        simp only [Bool.and_eq_true, decide_eq_true_eq] at hit'cond
        rw [hsweep, List.mem_map] at hit'mem
        obtain ⟨it, hit, hf⟩ := hit'mem
        by_cases hrecl : Reclaimable cat now it
        · rw [if_pos hrecl] at hf
          refine ⟨it, hit, hrecl.1, ?_, Or.inr hrecl⟩
          rw [← hpage, ← hf]
          rfl
        · rw [if_neg hrecl] at hf
          subst hf
          exact ⟨it, hit, hit'cond.1, hpage ▸ rfl, Or.inl hit'cond.2⟩
      · intro it hit hcat hstat
        have hmem : it.pageNumber ∈
            ((reclaimSweep cat now st.pages).filter
              (fun x => x.searchType = cat && x.status = Status.pending)).map
              (fun x => x.pageNumber) := by
          rcases hstat with hpend | hrecl
          · refine List.mem_map.mpr ⟨it, List.mem_filter.mpr ⟨?_, ?_⟩, rfl⟩
            · rw [hsweep]
              have : (if Reclaimable cat now it then reclaimItem it else it) = it := by
                rw [if_neg]
                rintro ⟨-, ha, -⟩
                rw [hpend] at ha
                exact absurd ha (by decide)
              rw [← this]
              exact List.mem_map_of_mem _ hit
            · simp [hcat, hpend]
          · refine List.mem_map.mpr ⟨reclaimItem it,
              List.mem_filter.mpr ⟨?_, by simp [reclaimItem, hcat]⟩, rfl⟩
            rw [hsweep]
            have hm := List.mem_map_of_mem
              (fun x => if Reclaimable cat now x then reclaimItem x else x) hit
            have hm2 : (if Reclaimable cat now it then reclaimItem it else it) ∈
                List.map (fun x => if Reclaimable cat now x then reclaimItem x else x)
                  st.pages := hm
            rw [if_pos hrecl] at hm2
            exact hm2
        exact hqmin _ hmem
      · intro i
        show (assignPage cat q w now (reclaimSweep cat now st.pages))[i]? = _
        rw [hsweep]
        unfold assignPage
        rw [List.map_map, List.getElem?_map]
        refine congrArg (fun f => Option.map f st.pages[i]?) (funext fun it => ?_)
        simp only [Function.comp_apply]
        by_cases hkey : it.searchType = cat ∧ it.pageNumber = q
        · rw [if_pos hkey]
          by_cases hrecl : Reclaimable cat now it
          · rw [if_pos hrecl, if_pos (by simp [reclaimItem, hkey.1, hkey.2]),
              if_pos hrecl]
            simp [reclaimItem]
          · rw [if_neg hrecl, if_pos (by simp [hkey.1, hkey.2]), if_neg hrecl]
            simp
        · rw [if_neg hkey]
          by_cases hrecl : Reclaimable cat now it
          · rw [if_pos hrecl, if_neg ?_, if_pos hrecl]
            · rfl
            · simp only [reclaimItem, Bool.and_eq_true, decide_eq_true_eq]
              intro ⟨h1, h2⟩
              exact hkey ⟨h1, h2⟩
          · rw [if_neg hrecl, if_neg ?_, if_neg hrecl]
            simp only [Bool.and_eq_true, decide_eq_true_eq]
            intro ⟨h1, h2⟩
            exact hkey ⟨h1, h2⟩

/-- C2 (amended: the lease-reclamation sweep applies only to Assigned items
of the requested category).  `getNextPage(category, workerId)` behaves as a
single atomic transaction: every Assigned item *of the requested category*
whose `assignedAt` is older than the 30-minute lease timeout and whose
`retryCount < 3` is reset to Pending with `retryCount` incremented by
exactly 1 (items with `retryCount ≥ 3`, and expired items of other
categories, are not reclaimed); then the lowest-numbered Pending item of
the category (pending already, or freshly reclaimed) is set to Assigned
with the caller's workerId and `assignedAt = now` and its page number is
returned; if no such item exists the call returns `none` and leaves the
store unchanged (the transaction is rolled back). -/
theorem getNextPage_spec (st : CoordState) (cat w : String) (now : Nat) :
    (∀ st', getNextPage st cat w now = (none, st') →
      st' = st ∧
      ∀ it ∈ st.pages,
        ¬ (it.searchType = cat ∧ (it.status = .pending ∨ Reclaimable cat now it))) ∧
    (∀ p st', getNextPage st cat w now = (some p, st') →
      (∃ it ∈ st.pages, it.searchType = cat ∧ it.pageNumber = p ∧
        (it.status = .pending ∨ Reclaimable cat now it)) ∧
      (∀ it ∈ st.pages, it.searchType = cat →
        (it.status = .pending ∨ Reclaimable cat now it) → p ≤ it.pageNumber) ∧
      st'.workers = st.workers ∧
      (∀ i : Nat, st'.pages[i]? = (st.pages[i]?).map (fun it =>
        if it.searchType = cat ∧ it.pageNumber = p then
          { it with
            status := .assigned
            workerId := some w
            assignedAt := some now
            retryCount := it.retryCount + (if Reclaimable cat now it then 1 else 0) }
        else if Reclaimable cat now it then
          { it with
            status := .pending
            workerId := none
            retryCount := it.retryCount + 1 }
        else it))) :=
  getNextPage_characterization st cat w now

/-- Witness for the C2 theorem on a concrete store: in `crossCatStore`,
`getNextPage "a" "w" 100` returns page 1, and instantiating the theorem
yields the pointwise description of the resulting store. -/
theorem getNextPage_spec_witness :
    (getNextPage crossCatStore "a" "w" 100).2.pages[1]? =
      some { searchType := "a", pageNumber := 1, status := .assigned,
             workerId := some "w", assignedAt := some 100, completedAt := none,
             retryCount := 0 } := by
  have h := (getNextPage_spec crossCatStore "a" "w" 100).2 1
    (getNextPage crossCatStore "a" "w" 100).2 (by decide)
  have h4 := h.2.2.2 1
  rw [h4]
  decide

/-- C4.  `mark_page_complete(category, page, workerId)` updates the work
item `(category, page)` to Completed with `completed_at = now` exactly when
the stored `worker_id` matches the caller (the SQL guard
`worker_id = ?`); any row not matching the guard — in particular the row
for `(category, page)` when its stored worker differs, e.g. after the
caller's lease was reclaimed and the page reassigned — keeps every one of
its fields unchanged. -/
theorem markPageComplete_guard (st : CoordState) (cat : String) (p : Nat)
    (w : String) (now : Nat) :
    (∀ i : Nat, (markPageComplete st cat p w now).pages[i]? =
      (st.pages[i]?).map (fun it =>
        if it.searchType = cat ∧ it.pageNumber = p ∧ it.workerId = some w then
          { it with status := .completed, completedAt := some now }
        else it)) ∧
    (∀ it ∈ st.pages, it.searchType = cat → it.pageNumber = p →
      it.workerId = some w →
      { it with status := .completed, completedAt := some now } ∈
        (markPageComplete st cat p w now).pages) ∧
    (∀ it ∈ st.pages,
      ¬ (it.searchType = cat ∧ it.pageNumber = p ∧ it.workerId = some w) →
      it ∈ (markPageComplete st cat p w now).pages) := by
  refine ⟨?_, ?_, ?_⟩
  · intro i
    show (st.pages.map _)[i]? = _
    rw [List.getElem?_map]
    refine congrArg (fun f => Option.map f st.pages[i]?) (funext fun it => ?_)
    by_cases hc : it.searchType = cat ∧ it.pageNumber = p ∧ it.workerId = some w
    · rw [if_pos (by simp [hc.1, hc.2.1, hc.2.2]), if_pos hc]
    · rw [if_neg ?_, if_neg hc]
      simp only [Bool.and_eq_true, decide_eq_true_eq]
      exact fun hb => hc ⟨hb.1.1, hb.1.2, hb.2⟩
  · intro it hit h1 h2 h3
    have hm := List.mem_map_of_mem (fun it =>
      if it.searchType = cat && it.pageNumber = p && it.workerId = some w then
        { it with status := Status.completed, completedAt := some now }
      else it) hit
    have hm2 : (if it.searchType = cat && it.pageNumber = p && it.workerId = some w then
        { it with status := Status.completed, completedAt := some now }
      else it) ∈ (markPageComplete st cat p w now).pages := hm
    rw [if_pos (by simp [h1, h2, h3])] at hm2
    exact hm2
  · intro it hit hc
    have hm := List.mem_map_of_mem (fun it =>
      if it.searchType = cat && it.pageNumber = p && it.workerId = some w then
        { it with status := Status.completed, completedAt := some now }
      else it) hit
    have hm2 : (if it.searchType = cat && it.pageNumber = p && it.workerId = some w then
        { it with status := Status.completed, completedAt := some now }
      else it) ∈ (markPageComplete st cat p w now).pages := hm
    rw [if_neg ?_] at hm2
    · exact hm2
    · simp only [Bool.and_eq_true, decide_eq_true_eq]
      exact fun hb => hc ⟨hb.1.1, hb.1.2, hb.2⟩

/-- The store used in the C4/C5 witnesses: one page assigned to worker
`"other"`, and two registered workers. -/
def guardDemoItem : WorkItem :=
  { searchType := "conviction", pageNumber := 7, status := .assigned,
    workerId := some "other", assignedAt := some 3, completedAt := none,
    retryCount := 0 }

def guardDemoWorker : WorkerRow :=
  { workerId := "w1", hostname := "host", lastHeartbeat := 0,
    pagesCompleted := 0, wstatus := "active" }

def guardDemoStore : CoordState :=
  { pages := [guardDemoItem], workers := [guardDemoWorker] }

/-- Witness for the C4 theorem: worker `"w1"` calls `mark_page_complete`
for a page whose stored worker is `"other"`; the row survives unchanged. -/
theorem markPageComplete_guard_witness :
    guardDemoItem ∈ (markPageComplete guardDemoStore "conviction" 7 "w1" 9).pages := by
  have h := (markPageComplete_guard guardDemoStore "conviction" 7 "w1" 9).2.2
    guardDemoItem (by decide)
  exact h (by decide)

/-- C5.  The second `UPDATE` of `mark_page_complete` touches only the
`workers` table and is not guarded by the page predicate: the named
worker's `pages_completed` is incremented by 1 and its heartbeat refreshed
no matter what the `pages` table contains — even when the worker-id guard
matched no work item — so `pages_completed` can exceed the number of work
items the worker actually completed.  The final conjunct shows this on a
store with *no work items at all*: the registered worker's counter still
becomes 1. -/
theorem markPageComplete_counter_unconditional (st : CoordState) (cat : String)
    (p : Nat) (w : String) (now : Nat) :
    (∀ j : Nat, (markPageComplete st cat p w now).workers[j]? =
      (st.workers[j]?).map (fun wk =>
        if wk.workerId = w then
          { wk with pagesCompleted := wk.pagesCompleted + 1, lastHeartbeat := now }
        else wk)) ∧
    (∀ ps : List WorkItem,
      (markPageComplete { pages := ps, workers := st.workers } cat p w now).workers =
        (markPageComplete st cat p w now).workers) ∧
    ((markPageComplete { pages := [], workers := [guardDemoWorker] }
        "conviction" 7 "w1" 9).workers.map (fun wk => wk.pagesCompleted) = [1] ∧
      (markPageComplete { pages := [], workers := [guardDemoWorker] }
        "conviction" 7 "w1" 9).pages = []) := by
  refine ⟨?_, fun ps => rfl, by decide, by decide⟩
  intro j
  show (st.workers.map _)[j]? = _
  rw [List.getElem?_map]

/-! ## Reachable-state invariants of the coordinator (C3) -/

/-- The UNIQUE constraint of the `pages` table, as a state predicate. -/
def KeysUnique (ps : List WorkItem) : Prop :=
  ps.Pairwise (fun a b => keyOf a ≠ keyOf b)

/-- Every Assigned row names exactly one worker and carries an assignment
timestamp (its current lease). -/
def AssignedWellFormed (ps : List WorkItem) : Prop :=
  ∀ it ∈ ps, it.status = .assigned →
    (∃ wi, it.workerId = some wi) ∧ (∃ a, it.assignedAt = some a)

def CoordInv (st : CoordState) : Prop :=
  KeysUnique st.pages ∧ AssignedWellFormed st.pages

theorem keysUnique_map {f : WorkItem → WorkItem}
    (hf : ∀ it, keyOf (f it) = keyOf it) {ps : List WorkItem}
    (h : KeysUnique ps) : KeysUnique (ps.map f) :=
  List.Pairwise.map f (fun a b hab => by rw [hf a, hf b]; exact hab) h

theorem keysUnique_eq {ps : List WorkItem} (h : KeysUnique ps) {a b : WorkItem}
    (ha : a ∈ ps) (hb : b ∈ ps) (hk : keyOf a = keyOf b) : a = b := by
  by_contra hne
  exact (h.forall (fun x y hxy => (Ne.symm hxy)) ha hb hne) hk

theorem coordInv_applyOp {st : CoordState} (op : Op) (h : CoordInv st) :
    CoordInv (applyOp st op) := by
  obtain ⟨hU, hA⟩ := h
  cases op with
  | init cat total =>
    show CoordInv (initializePages st cat total)
    unfold initializePages
    by_cases hc : st.pages.any (fun it => it.searchType = cat) = true
    · rw [if_pos hc]; exact ⟨hU, hA⟩
    · rw [if_neg hc]
      have hnocat : ∀ it ∈ st.pages, ¬ it.searchType = cat := by
        intro it hit hcontra
        exact hc (List.any_eq_true.mpr ⟨it, hit, by simp [hcontra]⟩)
      constructor
      · show KeysUnique (st.pages ++ (List.range' 1 total).map (newItem cat))
        unfold KeysUnique
        rw [List.pairwise_append]
        refine ⟨hU, ?_, ?_⟩
        · exact List.Pairwise.map _
            (fun a b hab => by simp [keyOf, newItem]; exact hab)
            (List.nodup_range' 1 total)
        · intro a ha b hb
          rcases List.mem_map.mp hb with ⟨i, -, rfl⟩
          simp only [keyOf, newItem, ne_eq, Prod.mk.injEq, not_and]
          intro hcat
          exact absurd hcat (hnocat a ha)
      · intro it hit hassigned
        rcases List.mem_append.mp hit with h1 | h2
        · exact hA it h1 hassigned
        · rcases List.mem_map.mp h2 with ⟨i, -, rfl⟩
          exact absurd hassigned (by simp [newItem])
  | register w host now => exact ⟨hU, hA⟩
  | getNext cat w now =>
    show CoordInv (getNextPage st cat w now).2
    cases hmin : nextPendingPage cat (reclaimSweep cat now st.pages) with
    | none =>
      have : (getNextPage st cat w now).2 = st := by
        simp [getNextPage, hmin]
      rw [this]
      exact ⟨hU, hA⟩
    | some p =>
      have hpages : (getNextPage st cat w now).2.pages =
          assignPage cat p w now (reclaimSweep cat now st.pages) := by
        simp [getNextPage, hmin]
      constructor
      · show KeysUnique (getNextPage st cat w now).2.pages
        rw [hpages]
        unfold assignPage reclaimSweep
        rw [List.map_map]
        refine keysUnique_map ?_ hU
        intro it
        simp only [Function.comp_apply]
        by_cases h1 : shouldReclaim cat now it = true
        · rw [if_pos h1]
          by_cases h2 : ((reclaimItem it).searchType = cat &&
              (reclaimItem it).pageNumber = p) = true
          · rw [if_pos h2]; simp [keyOf, reclaimItem]
          · rw [if_neg h2]; simp [keyOf, reclaimItem]
        · rw [if_neg h1]
          by_cases h2 : (it.searchType = cat && it.pageNumber = p) = true
          · rw [if_pos h2]; simp [keyOf]
          · rw [if_neg h2]
      · show AssignedWellFormed (getNextPage st cat w now).2.pages
        rw [hpages]
        intro it' hit' hstat
        unfold assignPage at hit'
        rcases List.mem_map.mp hit' with ⟨it1, hit1, rfl⟩
        unfold reclaimSweep at hit1
        rcases List.mem_map.mp hit1 with ⟨it0, hit0, rfl⟩
        by_cases h1 : shouldReclaim cat now it0 = true
        · rw [if_pos h1]
          rw [if_pos h1] at hstat
          by_cases h2 : ((reclaimItem it0).searchType = cat &&
              (reclaimItem it0).pageNumber = p) = true
          · rw [if_pos h2]; exact ⟨⟨w, rfl⟩, ⟨now, rfl⟩⟩
          · rw [if_neg h2]
            rw [if_neg h2] at hstat
            exact absurd hstat (by simp [reclaimItem])
        · rw [if_neg h1]
          rw [if_neg h1] at hstat
          by_cases h2 : (it0.searchType = cat && it0.pageNumber = p) = true
          · rw [if_pos h2]; exact ⟨⟨w, rfl⟩, ⟨now, rfl⟩⟩
          · rw [if_neg h2]
            rw [if_neg h2] at hstat
            exact hA it0 hit0 hstat
  | complete cat p w now =>
    constructor
    · show KeysUnique ((markPageComplete st cat p w now).pages)
      show KeysUnique (st.pages.map _)
      refine keysUnique_map ?_ hU
      intro it
      by_cases h1 : (it.searchType = cat && it.pageNumber = p &&
          it.workerId = some w) = true
      · rw [if_pos h1]; simp [keyOf]
      · rw [if_neg h1]
    · show AssignedWellFormed ((markPageComplete st cat p w now).pages)
      intro it' hit' hstat
      rcases List.mem_map.mp hit' with ⟨it0, hit0, rfl⟩
      by_cases h1 : (it0.searchType = cat && it0.pageNumber = p &&
          it0.workerId = some w) = true
      · rw [if_pos h1] at hstat ⊢
        exact absurd hstat (by simp)
      · rw [if_neg h1] at hstat ⊢
        exact hA it0 hit0 hstat

theorem coordInv_runOps (ops : List Op) : CoordInv (runOps ops) := by
  unfold runOps
  have hgen : ∀ st, CoordInv st → CoordInv (List.foldl applyOp st ops) := by
    induction ops with
    | nil => exact fun st h => h
    | cons op rest ih => exact fun st h => ih _ (coordInv_applyOp op h)
  exact hgen initialState ⟨List.Pairwise.nil, fun it hit => absurd hit (List.not_mem_nil it)⟩

/-- If `get_next_page` returns a page whose row was Assigned in the
pre-state of a key-unique store, that row's lease must have expired. -/
theorem getNextPage_assigned_expired {st : CoordState}
    (hU : KeysUnique st.pages) {cat w : String} {now p : Nat} {st' : CoordState}
    (h : getNextPage st cat w now = (some p, st'))
    {it : WorkItem} (hit : it ∈ st.pages) (hcat : it.searchType = cat)
    (hpage : it.pageNumber = p) (hstat : it.status = .assigned)
    {a : Nat} (ha : it.assignedAt = some a) : a + 30 < now := by
  obtain ⟨⟨it', hit', hcat', hpage', hcond⟩, -, -, -⟩ :=
    (getNextPage_characterization st cat w now).2 p st' h
  have heq : it = it' :=
    keysUnique_eq hU hit hit' (by simp [keyOf, hcat, hcat', hpage, hpage'])
  rcases hcond with hpend | hrecl
  · rw [← heq, hstat] at hpend
    exact absurd hpend (by simp)
  · obtain ⟨-, -, ⟨a', ha', hlt⟩, -⟩ := hrecl
    rw [← heq, ha] at ha'
    obtain rfl : a = a' := Option.some.inj ha'
    exact hlt

/-- C3.  In every state reachable by any interleaving of the coordinator's
operations (each of which executes atomically against the shared SQLite
store): (1) the UNIQUE constraint holds, so for each key `(category,
pageNumber)` there is at most one row, and since a row stores a single
`worker_id`, each work item is held in Assigned status by at most one
worker — moreover (2) every Assigned row names exactly one worker and
carries a lease timestamp; and (3) whenever `get_next_page` returns a page
number whose row is currently Assigned (to anyone), that row's
`assigned_at + 30 < now`: a page is never handed to a second worker while
any worker holds an unexpired lease on it. -/
theorem coordinator_lease_exclusivity (ops : List Op) :
    (∀ a b : WorkItem, a ∈ (runOps ops).pages → b ∈ (runOps ops).pages →
      keyOf a = keyOf b → a = b) ∧
    (∀ it ∈ (runOps ops).pages, it.status = .assigned →
      (∃ wi, it.workerId = some wi) ∧ (∃ a, it.assignedAt = some a)) ∧
    (∀ (cat w : String) (now p : Nat) (st' : CoordState),
      getNextPage (runOps ops) cat w now = (some p, st') →
      ∀ it ∈ (runOps ops).pages, it.searchType = cat → it.pageNumber = p →
        it.status = .assigned → ∀ a, it.assignedAt = some a → a + 30 < now) := by
  obtain ⟨hU, hA⟩ := coordInv_runOps ops
  refine ⟨fun a b ha hb hk => keysUnique_eq hU ha hb hk, hA, ?_⟩
  intro cat w now p st' h it hit hcat hpage hstat a ha
  exact getNextPage_assigned_expired hU h hit hcat hpage hstat ha

/-- Witness for the C3 theorem: after `initialize_pages "c" 1` and
`get_next_page "c" "w1"` at minute 0, page 1 is Assigned to `"w1"` with
`assigned_at = 0`; a second worker `"w2"` obtains page 1 at minute 31, and
the theorem instantiates to the concrete lease-expiry fact `0 + 30 < 31`. -/
theorem coordinator_lease_exclusivity_witness : 0 + 30 < 31 := by
  have h := (coordinator_lease_exclusivity [Op.init "c" 1, Op.getNext "c" "w1" 0]).2.2
  exact h "c" "w2" 31 1
    (getNextPage (runOps [Op.init "c" 1, Op.getNext "c" "w1" 0]) "c" "w2" 31).2
    (by decide)
    { searchType := "c", pageNumber := 1, status := .assigned,
      workerId := some "w1", assignedAt := some 0, completedAt := none,
      retryCount := 0 }
    (by decide) rfl rfl rfl 0 rfl

/-! ## Record extractor (`record_parser.py`)

`RecordParser._parse_charges_from_malformed_table` turns each table row
into a cell list (at most 11 cells, padded with `''` to 11), and builds a
charge dict when the first cell (the statute) is non-empty; the
`setdefault` pass at the end of `parse_conviction_charges` supplies the
defaulted modification fields.  A `Charge` below is the fully defaulted
dict. -/

structure Charge where
  statute : String
  description : String
  chargeClass : String
  chargeType : String
  occ : String
  offenseDate : String
  plea : String
  verdictFinding : String
  verdictDate : String
  fine : String
  fees : String
  sentenceText : Option String
  isModified : Bool
  modifiedSentenceFinding : String
  modifiedSentenceDate : String
  modifiedFine : String
  modifiedFees : String
deriving DecidableEq, Repr, Inhabited

/-- A row of the "Modified Sentence Information" table as produced by
`RecordParser._parse_modified_charges_regex` (cells 0, 1, 7, 8, 9, 10 of
the row). -/
structure ModCharge where
  statute : String
  description : String
  verdictFinding : String
  verdictDate : String
  fine : String
  fees : String
deriving DecidableEq, Repr

/-- The default whitespace set of Python's `str.strip()` (ASCII part:
space, tab, newline, carriage return, vertical tab, form feed). -/
def isPyWs (c : Char) : Bool :=
  c = ' ' || c = '\t' || c = '\n' || c = '\r' || c = Char.ofNat 11 || c = Char.ofNat 12

/-- Python's `str.strip()`: drop leading and trailing whitespace. -/
def pyStrip (s : String) : String :=
  String.mk (((s.data.dropWhile isPyWs).reverse.dropWhile isPyWs).reverse)

/-- The reconciliation loop compares `charge.get('Statute', '').strip()`
against `mod.get('statute', '').strip()`, and likewise for the
description. -/
def chargeKey (c : Charge) : String × String := (pyStrip c.statute, pyStrip c.description)

def modKey (m : ModCharge) : String × String := (pyStrip m.statute, pyStrip m.description)

/-- The update applied to a matched charge:
`charge['is_modified'] = True` plus the four modification fields copied
from the modification row. -/
def applyMod (m : ModCharge) (c : Charge) : Charge :=
  { c with
    isModified := true
    modifiedSentenceFinding := m.verdictFinding
    modifiedSentenceDate := m.verdictDate
    modifiedFine := m.fine
    modifiedFees := m.fees }

/-- The inner loop of the reconciliation in `parse_conviction_charges`:
enumerate the charges from index `i`, skip indices already in the
`matched_indices` set, return the first whose stripped `(statute,
description)` equals the modification row's key. -/
def findUnmatched (matched : Finset Nat) (k : String × String) :
    List Charge → Nat → Option (Nat × Charge)
  | [], _ => none
  | c :: cs, i =>
      if i ∉ matched ∧ chargeKey c = k then some (i, c)
      else findUnmatched matched k cs (i + 1)

/-- One iteration of the outer loop (one modification row): find the first
unmatched charge with the same key; if found, overwrite it with the
modification data and add its index to `matched_indices`; otherwise the
row is merely logged (non-fatal) and nothing changes. -/
def mergeStep (p : List Charge × Finset Nat) (m : ModCharge) :
    List Charge × Finset Nat :=
  match findUnmatched p.2 (modKey m) p.1 0 with
  | some (i, c) => (p.1.set i (applyMod m c), insert i p.2)
  | none => p

/-- The full reconciliation of `parse_conviction_charges`: fold the
modification rows, in table order, over the main-table charge list,
starting from `matched_indices = set()`. -/
def mergeModified (mods : List ModCharge) (charges : List Charge) : List Charge :=
  (mods.foldl mergeStep (charges, (∅ : Finset Nat))).1

/-- The spec's matching rule, written as the spec words it: a main-table
charge whose key `(statute, description)` has 0-based occurrence rank `r`
among the charges of that key (i.e. `r` earlier charges share its key)
receives the modification row that is the `(r+1)`-th (1-based `N`-th)
occurrence of that key within the modification table, when that row
exists; repeated identical statute/description pairs are therefore matched
in order, and a modification row with no corresponding charge is dropped
(non-fatal). -/
def specMergeGo (mods : List ModCharge) (prev : List Charge) :
    List Charge → List Charge
  | [] => []
  | c :: cs =>
      (match (mods.filter (fun m => modKey m = chargeKey c))[
          (prev.filter (fun x => chargeKey x = chargeKey c)).length]? with
       | some m => applyMod m c
       | none => c) :: specMergeGo mods (prev ++ [c]) cs

def specMergeOcc (mods : List ModCharge) (charges : List Charge) : List Charge :=
  specMergeGo mods [] charges

/-! ## Field mapping of a main-table row (C9) -/

/-- Cell collection in `_parse_charges_from_malformed_table`: cells are
accumulated until 11 (`if len(cells) >= 11: break`), then padded with `''`
(`while len(cells) < 11: cells.append('')`). -/
def padCells (cells : List String) : List String :=
  cells.take 11 ++ List.replicate (11 - (cells.take 11).length) ""

/-- Python's `x or d` for the falsy empty string. -/
def orDefault (s dflt : String) : String := if s = "" then dflt else s

/-- The charge record built from one row: `None` only when the statute
cell is empty (`if cells[0]:`); otherwise the fixed-position field
mapping, with `Occ` defaulting to `'1'` and `Fine`/`Fee(s)` to `'$0.00'`,
plus the `setdefault` modification-field defaults from
`parse_conviction_charges`. -/
def rowToCharge (cells : List String) (sentence : Option String) : Option Charge :=
  let cs := padCells cells
  if cs.getD 0 "" = "" then none
  else some {
    statute := pyStrip (cs.getD 0 "")
    description := pyStrip (cs.getD 1 "")
    chargeClass := pyStrip (cs.getD 2 "")
    chargeType := pyStrip (cs.getD 3 "")
    occ := orDefault (pyStrip (cs.getD 4 "")) "1"
    offenseDate := pyStrip (cs.getD 5 "")
    plea := pyStrip (cs.getD 6 "")
    verdictFinding := pyStrip (cs.getD 7 "")
    verdictDate := pyStrip (cs.getD 8 "")
    fine := orDefault (pyStrip (cs.getD 9 "")) "$0.00"
    fees := orDefault (pyStrip (cs.getD 10 "")) "$0.00"
    sentenceText := sentence
    isModified := false
    modifiedSentenceFinding := ""
    modifiedSentenceDate := ""
    modifiedFine := ""
    modifiedFees := "" }

theorem padCells_getD (cells : List String) (i : Nat) (h : i < 11) :
    (padCells cells).getD i "" = cells.getD i "" := by
  unfold padCells
  rw [List.getD_eq_getElem?_getD, List.getD_eq_getElem?_getD]
  by_cases hlen : i < cells.length
  · have h1 : i < (cells.take 11).length := by
      rw [List.length_take]; omega
    rw [List.getElem?_append_left h1, List.getElem?_take_of_lt h]
  · have hle : cells.length ≤ i := Nat.le_of_not_lt hlen
    have hlt11 : cells.length < 11 := Nat.lt_of_le_of_lt hle h
    have htake : cells.take 11 = cells := List.take_of_length_le (Nat.le_of_lt hlt11)
    rw [htake, List.getElem?_append_right hle, List.getElem?_replicate,
      List.getElem?_eq_none hle]
    rw [if_pos (by omega)]
    rfl

/-- C9.  For every input row, whatever the number of cells it actually
contained, the extractor is total (it can only decline to emit a record
when the statute cell is empty, never merely because the row is short) and
the produced charge record has its complete field set populated: missing
trailing cells are padded with `''`, `Occ` defaults to `'1'`, `Fine` and
`Fee(s)` default to `'$0.00'`, and the modification fields default to
`is_modified = false` with empty strings. -/
theorem rowToCharge_defaults (cells : List String) (sentence : Option String) :
    ((rowToCharge cells sentence).isNone → cells.getD 0 "" = "") ∧
    (∀ c, rowToCharge cells sentence = some c →
      c.statute = pyStrip (cells.getD 0 "") ∧
      (cells.length ≤ 1 → c.description = "") ∧
      (cells.length ≤ 2 → c.chargeClass = "") ∧
      (cells.length ≤ 3 → c.chargeType = "") ∧
      (pyStrip (cells.getD 4 "") = "" → c.occ = "1") ∧
      (cells.length ≤ 5 → c.offenseDate = "") ∧
      (cells.length ≤ 6 → c.plea = "") ∧
      (cells.length ≤ 7 → c.verdictFinding = "") ∧
      (cells.length ≤ 8 → c.verdictDate = "") ∧
      (pyStrip (cells.getD 9 "") = "" → c.fine = "$0.00") ∧
      (pyStrip (cells.getD 10 "") = "" → c.fees = "$0.00") ∧
      c.isModified = false ∧
      c.modifiedSentenceFinding = "" ∧ c.modifiedSentenceDate = "" ∧
      c.modifiedFine = "" ∧ c.modifiedFees = "") := by
  have hdefault : ∀ (i : Nat), cells.length ≤ i → cells.getD i "" = "" := by
    intro i hi
    rw [List.getD_eq_getElem?_getD, List.getElem?_eq_none hi]
    rfl
  constructor
  · intro hnone
    unfold rowToCharge at hnone
    by_cases h0 : (padCells cells).getD 0 "" = ""
    · rw [← padCells_getD cells 0 (by omega)]
      exact h0
    · rw [if_neg h0] at hnone
      exact absurd hnone (by simp)
  · intro c hc
    unfold rowToCharge at hc
    by_cases h0 : (padCells cells).getD 0 "" = ""
    · rw [if_pos h0] at hc
      exact absurd hc (by simp)
    · rw [if_neg h0, Option.some.injEq] at hc
      subst hc
      refine ⟨by rw [padCells_getD cells 0 (by omega)], ?_, ?_, ?_, ?_, ?_, ?_,
        ?_, ?_, ?_, ?_, rfl, rfl, rfl, rfl, rfl⟩
      · intro h
        show pyStrip ((padCells cells).getD 1 "") = ""
        rw [padCells_getD cells 1 (by omega), hdefault 1 h]
        rfl
      · intro h
        show pyStrip ((padCells cells).getD 2 "") = ""
        rw [padCells_getD cells 2 (by omega), hdefault 2 h]
        rfl
      · intro h
        show pyStrip ((padCells cells).getD 3 "") = ""
        rw [padCells_getD cells 3 (by omega), hdefault 3 h]
        rfl
      · intro h
        show orDefault (pyStrip ((padCells cells).getD 4 "")) "1" = "1"
        rw [padCells_getD cells 4 (by omega), h]
        rfl
      · intro h
        show pyStrip ((padCells cells).getD 5 "") = ""
        rw [padCells_getD cells 5 (by omega), hdefault 5 h]
        rfl
      · intro h
        show pyStrip ((padCells cells).getD 6 "") = ""
        rw [padCells_getD cells 6 (by omega), hdefault 6 h]
        rfl
      · intro h
        show pyStrip ((padCells cells).getD 7 "") = ""
        rw [padCells_getD cells 7 (by omega), hdefault 7 h]
        rfl
      · intro h
        show pyStrip ((padCells cells).getD 8 "") = ""
        rw [padCells_getD cells 8 (by omega), hdefault 8 h]
        rfl
      · intro h
        show orDefault (pyStrip ((padCells cells).getD 9 "")) "$0.00" = "$0.00"
        rw [padCells_getD cells 9 (by omega), h]
        rfl
      · intro h
        show orDefault (pyStrip ((padCells cells).getD 10 "")) "$0.00" = "$0.00"
        rw [padCells_getD cells 10 (by omega), h]
        rfl

/-- The record produced from the one-cell row `["53a-116"]`. -/
def shortRowCharge : Charge :=
  { statute := "53a-116", description := "", chargeClass := "", chargeType := "",
    occ := "1", offenseDate := "", plea := "", verdictFinding := "",
    verdictDate := "", fine := "$0.00", fees := "$0.00", sentenceText := none,
    isModified := false, modifiedSentenceFinding := "", modifiedSentenceDate := "",
    modifiedFine := "", modifiedFees := "" }

/-- Witness for the C9 theorem: a one-cell row still yields a complete,
defaulted record. -/
theorem rowToCharge_defaults_witness :
    shortRowCharge.occ = "1" ∧ shortRowCharge.fine = "$0.00" ∧
    shortRowCharge.fees = "$0.00" ∧ shortRowCharge.isModified = false := by
  have h := (rowToCharge_defaults ["53a-116"] none).2 shortRowCharge (by decide)
  obtain ⟨-, -, -, -, h5, -, -, -, -, h10, h11, h12, -⟩ := h
  exact ⟨h5 (by decide), h10 (by decide), h11 (by decide), h12⟩

/-! ## Proof machinery for the reconciliation theorem (C1)

The code's loop is modification-row-major (each row searches for its first
unmatched charge); the spec formula is charge-major (each charge takes the
next unconsumed row of its key).  `mergeAux`/`consumeMod` below is the
charge-major consumption form used as a bridge between the two. -/

/-- Remove the first modification row whose key is `k`, returning it and
the remaining rows. -/
def consumeMod (k : String × String) :
    List ModCharge → Option (ModCharge × List ModCharge)
  | [] => none
  | m :: ms =>
      if modKey m = k then some (m, ms)
      else
        match consumeMod k ms with
        | some (m', rest) => some (m', m :: rest)
        | none => none

/-- Charge-major form of the reconciliation: each charge, in order,
consumes the first remaining modification row of its key. -/
def mergeAux : List ModCharge → List Charge → List Charge
  | _, [] => []
  | ms, c :: cs =>
      match consumeMod (chargeKey c) ms with
      | some (m, ms') => applyMod m c :: mergeAux ms' cs
      | none => c :: mergeAux ms cs

theorem consumeMod_none_iff (k : String × String) (ms : List ModCharge) :
    consumeMod k ms = none ↔ ms.filter (fun m => modKey m = k) = [] := by
  induction ms with
  | nil => simp [consumeMod]
  | cons m ms ih =>
    by_cases h : modKey m = k
    · simp [consumeMod, h]
    · rw [consumeMod, if_neg h, List.filter_cons_of_neg (by simp [h])]
      cases hc : consumeMod k ms with
      | some pr =>
        simp only [hc]
        constructor
        · intro hx; cases hx
        · intro hf
          rw [ih.mpr hf] at hc
          cases hc
      | none =>
        simp only [hc]
        rw [← ih, hc]
        simp


theorem consumeMod_some_filter (k : String × String) (ms : List ModCharge)
    (m : ModCharge) (ms' : List ModCharge) (h : consumeMod k ms = some (m, ms')) :
    ms.filter (fun x => modKey x = k) = m :: ms'.filter (fun x => modKey x = k) ∧
    (∀ k', k' ≠ k →
      ms'.filter (fun x => modKey x = k') = ms.filter (fun x => modKey x = k')) := by
  induction ms generalizing m ms' with
  | nil => cases h
  | cons m0 ms0 ih =>
    rw [consumeMod] at h
    by_cases h0 : modKey m0 = k
    · rw [if_pos h0, Option.some.injEq, Prod.mk.injEq] at h
      obtain ⟨rfl, rfl⟩ := h
      constructor
      · rw [List.filter_cons_of_pos (by simp [h0])]
      · intro k' hk'
        rw [List.filter_cons_of_neg (by simp; rw [h0]; exact fun hc => hk' hc.symm)]
    · rw [if_neg h0] at h
      cases hc : consumeMod k ms0 with
      | none => rw [hc] at h; cases h
      | some pr =>
        obtain ⟨m1, ms1⟩ := pr
        rw [hc, Option.some.injEq, Prod.mk.injEq] at h
        obtain ⟨rfl, rfl⟩ := h
        obtain ⟨ih1, ih2⟩ := ih m1 ms1 hc
        constructor
        · rw [List.filter_cons_of_neg (by simp [h0]),
            List.filter_cons_of_neg (by simp [h0]), ih1]
        · intro k' hk'
          by_cases hm0 : modKey m0 = k'
          · rw [List.filter_cons_of_pos (by simp [hm0]),
              List.filter_cons_of_pos (by simp [hm0]), ih2 k' hk']
          · rw [List.filter_cons_of_neg (by simp [hm0]),
              List.filter_cons_of_neg (by simp [hm0]), ih2 k' hk']

/-! Index-shift lemmas: processing the tail of the charge list with a
shifted copy of `matched_indices`. -/

theorem mem_shift (matched : Finset Nat) (j : Nat) :
    (j + 1) ∈ matched.image (· + 1) ↔ j ∈ matched := by
  rw [Finset.mem_image]
  constructor
  · rintro ⟨a, ha, he⟩
    obtain rfl : a = j := by omega
    exact ha
  · exact fun h => ⟨j, h, rfl⟩

theorem zero_not_mem_shift (matched : Finset Nat) :
    0 ∉ matched.image (· + 1) := by
  rw [Finset.mem_image]
  rintro ⟨a, -, he⟩
  omega

theorem mem_shift_zero (matched : Finset Nat) (j : Nat) :
    (j + 1) ∈ insert 0 (matched.image (· + 1)) ↔ j ∈ matched := by
  rw [Finset.mem_insert, mem_shift]
  simp

theorem findUnmatched_shift (k : String × String)
    (matchedBig matched : Finset Nat)
    (hmem : ∀ j : Nat, (j + 1) ∈ matchedBig ↔ j ∈ matched) :
    ∀ (cs : List Charge) (i : Nat),
      findUnmatched matchedBig k cs (i + 1) =
        (findUnmatched matched k cs i).map (fun jc => (jc.1 + 1, jc.2)) := by
  intro cs
  induction cs with
  | nil => intro i; rfl
  | cons c cs ih =>
    intro i
    rw [findUnmatched, findUnmatched]
    by_cases hkey : chargeKey c = k
    · by_cases hm : i ∈ matched
      · have hbig : (i + 1) ∈ matchedBig := (hmem i).mpr hm
        rw [if_neg (fun hh => hh.1 hbig), if_neg (fun hh => hh.1 hm)]
        exact ih (i + 1)
      · have hbig : (i + 1) ∉ matchedBig := fun hc => hm ((hmem i).mp hc)
        rw [if_pos ⟨hbig, hkey⟩, if_pos ⟨hm, hkey⟩]
        rfl
    · rw [if_neg (fun hh => hkey hh.2), if_neg (fun hh => hkey hh.2)]
      exact ih (i + 1)

theorem mergeStep_cons_miss (m : ModCharge) (c : Charge) (cs : List Charge)
    (matched : Finset Nat) (h : modKey m ≠ chargeKey c) :
    mergeStep (c :: cs, matched.image (· + 1)) m =
      (c :: (mergeStep (cs, matched) m).1,
        ((mergeStep (cs, matched) m).2).image (· + 1)) := by
  rw [mergeStep, mergeStep]
  show (match findUnmatched (matched.image (· + 1)) (modKey m) (c :: cs) 0 with
    | some (i, c') => ((c :: cs).set i (applyMod m c'), insert i (matched.image (· + 1)))
    | none => (c :: cs, matched.image (· + 1))) = _
  rw [findUnmatched, if_neg (fun hh => h hh.2.symm),
    findUnmatched_shift (modKey m) (matched.image (· + 1)) matched
      (fun j => mem_shift matched j) cs 0]
  cases hf : findUnmatched matched (modKey m) cs 0 with
  | none => rfl
  | some jc =>
    obtain ⟨j, x⟩ := jc
    simp only [Option.map_some']
    rw [List.set_cons_succ, Finset.image_insert]

theorem mergeStep_cons_hit (m : ModCharge) (c : Charge) (cs : List Charge)
    (matched : Finset Nat) (h : modKey m = chargeKey c) :
    mergeStep (c :: cs, matched.image (· + 1)) m =
      (applyMod m c :: cs, insert 0 (matched.image (· + 1))) := by
  rw [mergeStep]
  show (match findUnmatched (matched.image (· + 1)) (modKey m) (c :: cs) 0 with
    | some (i, c') => ((c :: cs).set i (applyMod m c'), insert i (matched.image (· + 1)))
    | none => (c :: cs, matched.image (· + 1))) = _
  rw [findUnmatched, if_pos ⟨zero_not_mem_shift matched, h.symm⟩]
  rfl

theorem mergeStep_cons_matchedHead (m : ModCharge) (x : Charge)
    (cs : List Charge) (matched : Finset Nat) :
    mergeStep (x :: cs, insert 0 (matched.image (· + 1))) m =
      (x :: (mergeStep (cs, matched) m).1,
        insert 0 (((mergeStep (cs, matched) m).2).image (· + 1))) := by
  rw [mergeStep, mergeStep]
  show (match findUnmatched (insert 0 (matched.image (· + 1))) (modKey m) (x :: cs) 0 with
    | some (i, c') =>
        ((x :: cs).set i (applyMod m c'),
          insert i (insert 0 (matched.image (· + 1))))
    | none => (x :: cs, insert 0 (matched.image (· + 1)))) = _
  rw [findUnmatched,
    if_neg (fun hh => hh.1 (Finset.mem_insert_self 0 (matched.image (· + 1)))),
    findUnmatched_shift (modKey m) (insert 0 (matched.image (· + 1))) matched
      (fun j => mem_shift_zero matched j) cs 0]
  cases hf : findUnmatched matched (modKey m) cs 0 with
  | none => rfl
  | some jc =>
    obtain ⟨j, x'⟩ := jc
    simp only [Option.map_some']
    rw [List.set_cons_succ, Finset.image_insert, Finset.Insert.comm]

/-- Once the head charge is matched (index 0 in `matched_indices`), every
further modification row acts on the tail exactly as it would on the tail
list alone. -/
theorem foldl_mergeStep_matchedHead (mods : List ModCharge) :
    ∀ (x : Charge) (cs : List Charge) (matched : Finset Nat),
      List.foldl mergeStep (x :: cs, insert 0 (matched.image (· + 1))) mods =
        (x :: (List.foldl mergeStep (cs, matched) mods).1,
          insert 0 (((List.foldl mergeStep (cs, matched) mods).2).image (· + 1))) := by
  induction mods with
  | nil => intro x cs matched; rfl
  | cons m rest ih =>
    intro x cs matched
    rw [List.foldl_cons, List.foldl_cons, mergeStep_cons_matchedHead]
    have := ih x (mergeStep (cs, matched) m).1 (mergeStep (cs, matched) m).2
    rw [this]

/-- Head-step decomposition of the modification-row-major fold: the first
modification row whose key matches the head charge claims it; all other
rows act on the tail. -/
theorem foldl_mergeStep_cons (mods : List ModCharge) :
    ∀ (c : Charge) (cs : List Charge) (matched : Finset Nat),
      (List.foldl mergeStep (c :: cs, matched.image (· + 1)) mods).1 =
        (match consumeMod (chargeKey c) mods with
         | some (m, ms') => applyMod m c :: (List.foldl mergeStep (cs, matched) ms').1
         | none => c :: (List.foldl mergeStep (cs, matched) mods).1) := by
  induction mods with
  | nil => intro c cs matched; rfl
  | cons m0 rest ih =>
    intro c cs matched
    rw [List.foldl_cons, consumeMod]
    by_cases h : modKey m0 = chargeKey c
    · rw [if_pos h, mergeStep_cons_hit m0 c cs matched h,
        foldl_mergeStep_matchedHead rest (applyMod m0 c) cs matched]
    · rw [if_neg h, mergeStep_cons_miss m0 c cs matched h]
      have hih := ih c (mergeStep (cs, matched) m0).1 (mergeStep (cs, matched) m0).2
      rw [hih]
      cases hc : consumeMod (chargeKey c) rest with
      | none => rfl
      | some pr =>
        obtain ⟨m, ms'⟩ := pr
        rfl

/-- The fold never changes an empty charge list. -/
theorem foldl_mergeStep_nil (mods : List ModCharge) :
    ∀ matched : Finset Nat,
      List.foldl mergeStep (([] : List Charge), matched) mods = ([], matched) := by
  induction mods with
  | nil => intro matched; rfl
  | cons m rest ih =>
    intro matched
    rw [List.foldl_cons]
    show List.foldl mergeStep (mergeStep ([], matched) m) rest = _
    rw [show mergeStep ([], matched) m = ([], matched) from rfl]
    exact ih matched

/-- The modification-row-major loop of `parse_conviction_charges` computes
the same result as the charge-major consumption recursion. -/
theorem mergeModified_eq_mergeAux :
    ∀ (charges : List Charge) (mods : List ModCharge),
      mergeModified mods charges = mergeAux mods charges := by
  intro charges
  induction charges with
  | nil =>
    intro mods
    show (List.foldl mergeStep ([], ∅) mods).1 = _
    rw [foldl_mergeStep_nil mods ∅]
    rfl
  | cons c cs ih =>
    intro mods
    show (List.foldl mergeStep (c :: cs, ∅) mods).1 = mergeAux mods (c :: cs)
    have hempty : (∅ : Finset Nat) = (∅ : Finset Nat).image (· + 1) := by
      rw [Finset.image_empty]
    rw [hempty, foldl_mergeStep_cons mods c cs ∅]
    cases hc : consumeMod (chargeKey c) mods with
    | none =>
      rw [mergeAux, hc]
      exact congrArg _ (ih mods)
    | some pr =>
      obtain ⟨m, ms'⟩ := pr
      rw [mergeAux, hc]
      exact congrArg _ (ih ms')

/-- The charge-major consumption recursion computes the spec's
occurrence-rank formula. -/
theorem mergeAux_eq_specGo (fullMods : List ModCharge) :
    ∀ (cs : List Charge) (ms : List ModCharge) (prev : List Charge),
      (∀ k : String × String,
        ms.filter (fun m => modKey m = k) =
          (fullMods.filter (fun m => modKey m = k)).drop
            ((prev.filter (fun x => chargeKey x = k)).length)) →
      mergeAux ms cs = specMergeGo fullMods prev cs := by
  intro cs
  induction cs with
  | nil => intro ms prev hinv; rfl
  | cons c cs ih =>
    intro ms prev hinv
    have hk := hinv (chargeKey c)
    cases hc : consumeMod (chargeKey c) ms with
    | none =>
      have hfe : ms.filter (fun m => modKey m = chargeKey c) = [] :=
        (consumeMod_none_iff _ _).mp hc
      have hdrop : (fullMods.filter (fun m => modKey m = chargeKey c)).drop
          ((prev.filter (fun x => chargeKey x = chargeKey c)).length) = [] := by
        rw [← hk, hfe]
      have hidx : (fullMods.filter (fun m => modKey m = chargeKey c))[
          (prev.filter (fun x => chargeKey x = chargeKey c)).length]? = none := by
        have := List.getElem?_drop (fullMods.filter (fun m => modKey m = chargeKey c))
          ((prev.filter (fun x => chargeKey x = chargeKey c)).length) 0
        rw [hdrop] at this
        simpa using this.symm
      rw [mergeAux, hc, specMergeGo, hidx]
      refine congrArg _ (ih ms (prev ++ [c]) ?_)
      intro k'
      by_cases hkc : k' = chargeKey c
      · subst hkc
        rw [hfe, List.filter_append]
        have hone : [c].filter (fun x => chargeKey x = chargeKey c) = [c] := by
          rw [List.filter_cons_of_pos (by simp), List.filter_nil]
        rw [hone, List.length_append, List.length_cons, List.length_nil]
        have : ∀ n, ((fullMods.filter (fun m => modKey m = chargeKey c)).drop
            ((prev.filter (fun x => chargeKey x = chargeKey c)).length)).drop n = [] := by
          intro n
          rw [hdrop, List.drop_nil]
        have h2 := this 1
        rw [List.drop_drop] at h2
        rw [← h2]
      · rw [hinv k', List.filter_append]
        have hzero : [c].filter (fun x => chargeKey x = k') = [] := by
          rw [List.filter_cons_of_neg (by simpa using fun hh => hkc hh.symm),
            List.filter_nil]
        rw [hzero, List.append_nil]
    | some pr =>
      obtain ⟨m, ms'⟩ := pr
      obtain ⟨hf1, hf2⟩ := consumeMod_some_filter (chargeKey c) ms m ms' hc
      have hdrop : (fullMods.filter (fun m => modKey m = chargeKey c)).drop
          ((prev.filter (fun x => chargeKey x = chargeKey c)).length) =
          m :: ms'.filter (fun x => modKey x = chargeKey c) := by
        rw [← hk, hf1]
      have hidx : (fullMods.filter (fun m => modKey m = chargeKey c))[
          (prev.filter (fun x => chargeKey x = chargeKey c)).length]? = some m := by
        have := List.getElem?_drop (fullMods.filter (fun m => modKey m = chargeKey c))
          ((prev.filter (fun x => chargeKey x = chargeKey c)).length) 0
        rw [hdrop] at this
        simpa using this.symm
      rw [mergeAux, hc, specMergeGo, hidx]
      refine congrArg _ (ih ms' (prev ++ [c]) ?_)
      intro k'
      by_cases hkc : k' = chargeKey c
      · subst hkc
        have htail : ms'.filter (fun x => modKey x = chargeKey c) =
            (fullMods.filter (fun m => modKey m = chargeKey c)).drop
              ((prev.filter (fun x => chargeKey x = chargeKey c)).length + 1) := by
          have h1 := List.tail_drop (fullMods.filter (fun m => modKey m = chargeKey c))
            ((prev.filter (fun x => chargeKey x = chargeKey c)).length)
          rw [hdrop, List.tail_cons] at h1
          exact h1
        rw [htail, List.filter_append]
        have hone : [c].filter (fun x => chargeKey x = chargeKey c) = [c] := by
          rw [List.filter_cons_of_pos (by simp), List.filter_nil]
        rw [hone, List.length_append, List.length_cons, List.length_nil]
      · rw [hf2 k' hkc, hinv k', List.filter_append]
        have hzero : [c].filter (fun x => chargeKey x = k') = [] := by
          rw [List.filter_cons_of_neg (by simpa using fun hh => hkc hh.symm),
            List.filter_nil]
        rw [hzero, List.append_nil]

/-- A bare main-table charge used in the C1 example (all fields at their
extraction defaults). -/
def exampleCharge (s d : String) : Charge :=
  { statute := s, description := d, chargeClass := "", chargeType := "",
    occ := "1", offenseDate := "", plea := "", verdictFinding := "",
    verdictDate := "", fine := "$0.00", fees := "$0.00", sentenceText := none,
    isModified := false, modifiedSentenceFinding := "", modifiedSentenceDate := "",
    modifiedFine := "", modifiedFees := "" }

/-- The single modification row `(A, "d1", finding = "X")` of the C1
example. -/
def exampleMod : ModCharge :=
  { statute := "A", description := "d1", verdictFinding := "X",
    verdictDate := "", fine := "$0.00", fees := "$0.00" }

/-- C1.  The reconciliation of `parse_conviction_charges` matches each
modification-table row, in table order, to main-table charges of the same
stripped `(statute, description)` key so that the row that is the `N`-th
occurrence of its key within the modification table is matched to the
`N`-th charge carrying that key: for every modification list and charge
list the loop computes exactly the spec's occurrence-rank formula
`specMergeOcc` (matched charges receive `is_modified = true` plus the four
modification fields via `applyMod`; unmatched modification rows are
dropped without failing, and unmatched charges are returned unchanged).
In particular, for main charges `[(A,d1), (A,d1), (B,d2)]` and the single
modification row `(A, d1, finding = "X")`, exactly the first `(A,d1)`
charge is marked modified and the second is not. -/
theorem mergeModified_matches_occurrences :
    (∀ (mods : List ModCharge) (charges : List Charge),
      mergeModified mods charges = specMergeOcc mods charges) ∧
    mergeModified [exampleMod]
        [exampleCharge "A" "d1", exampleCharge "A" "d1", exampleCharge "B" "d2"] =
      [applyMod exampleMod (exampleCharge "A" "d1"),
        exampleCharge "A" "d1", exampleCharge "B" "d2"] ∧
    (applyMod exampleMod (exampleCharge "A" "d1")).isModified = true ∧
    (applyMod exampleMod (exampleCharge "A" "d1")).modifiedSentenceFinding = "X" ∧
    (exampleCharge "A" "d1").isModified = false := by
  refine ⟨?_, by decide, rfl, rfl, rfl⟩
  intro mods charges
  rw [mergeModified_eq_mergeAux]
  exact mergeAux_eq_specGo mods charges mods [] (fun k => by simp)

/-- Witness for the C7 theorem: initializing two pages in the empty store
inserts exactly pages 1 and 2 as Pending, and re-running
`initialize_pages` on a store that already holds a row for the category is
a no-op. -/
theorem initializePages_idempotent_witness :
    (initializePages initialState "c" 2).pages = [newItem "c" 1, newItem "c" 2] ∧
    initializePages { pages := [newItem "c" 1], workers := [] } "c" 5 =
      { pages := [newItem "c" 1], workers := [] } := by
  constructor
  · have h := ((initializePages_idempotent initialState "c" 2).1 (by decide)).1
    rw [h]
    decide
  · exact (initializePages_idempotent
      { pages := [newItem "c" 1], workers := [] } "c" 5).2.1
      ⟨newItem "c" 1, by decide, rfl⟩

/-! ## Checkpoint persistence (`checkpoint.py`)

`CheckpointManager.save_checkpoint` stamps `last_update` and writes
`checkpoint_data` with `json.dump`; `load_checkpoint` returns the parsed
file content, or the fresh default dict when no file exists (or parsing
fails).  The JSON document is embedded as the `JVal` tree below;
encoding/decoding mirror `json.dump`/`json.load` plus the dict accesses
`checkpoint_data[search_type][field]`. -/

inductive JVal where
  | null
  | jstr (s : String)
  | jint (n : Int)
  | jbool (b : Bool)
  | jarr (xs : List JVal)
  | jobj (fields : List (String × JVal))

/-- Per-category search progress:
`{last_page, last_href, completed, total_processed}`. -/
structure SearchCheckpoint where
  last_page : Nat
  last_href : Option String
  completed : Bool
  total_processed : Nat
deriving DecidableEq, Repr

/-- The `daily_docket` entry:
`{last_court_code, completed_courts, completed}`. -/
structure DailyDocketCheckpoint where
  last_court_code : Option String
  completed_courts : List String
  completed : Bool
deriving DecidableEq, Repr

structure CheckpointData where
  pending : SearchCheckpoint
  conviction : SearchCheckpoint
  daily_docket : DailyDocketCheckpoint
  last_update : Option String
deriving DecidableEq, Repr

/-- The fresh default returned by `load_checkpoint` when no checkpoint
file exists. -/
def defaultCheckpoint : CheckpointData :=
  { pending := { last_page := 0, last_href := none, completed := false,
                 total_processed := 0 },
    conviction := { last_page := 0, last_href := none, completed := false,
                    total_processed := 0 },
    daily_docket := { last_court_code := none, completed_courts := [],
                      completed := false },
    last_update := none }

def encodeOptStr : Option String → JVal
  | none => .null
  | some s => .jstr s

def encodeSearch (sc : SearchCheckpoint) : JVal :=
  .jobj [("last_page", .jint (sc.last_page : Int)),
         ("last_href", encodeOptStr sc.last_href),
         ("completed", .jbool sc.completed),
         ("total_processed", .jint (sc.total_processed : Int))]

def encodeDaily (d : DailyDocketCheckpoint) : JVal :=
  .jobj [("last_court_code", encodeOptStr d.last_court_code),
         ("completed_courts", .jarr (d.completed_courts.map JVal.jstr)),
         ("completed", .jbool d.completed)]

def encodeCheckpoint (cp : CheckpointData) : JVal :=
  .jobj [("pending", encodeSearch cp.pending),
         ("conviction", encodeSearch cp.conviction),
         ("daily_docket", encodeDaily cp.daily_docket),
         ("last_update", encodeOptStr cp.last_update)]

/-- Dictionary access `data[key]`. -/
def jlookup (fields : List (String × JVal)) (key : String) : Option JVal :=
  (fields.find? (fun p => p.1 = key)).map (fun p => p.2)

def decodeOptStr : JVal → Option (Option String)
  | .null => some none
  | .jstr s => some (some s)
  | _ => none

def decodeStrings : List JVal → Option (List String)
  | [] => some []
  | .jstr s :: rest =>
      match decodeStrings rest with
      | some l => some (s :: l)
      | none => none
  | _ :: _ => none

def decodeSearch (v : JVal) : Option SearchCheckpoint :=
  match v with
  | .jobj fs =>
      match jlookup fs "last_page", jlookup fs "last_href",
            jlookup fs "completed", jlookup fs "total_processed" with
      | some (.jint n), some hv, some (.jbool b), some (.jint t) =>
          match decodeOptStr hv with
          | some href => some { last_page := n.toNat, last_href := href,
                                completed := b, total_processed := t.toNat }
          | none => none
      | _, _, _, _ => none
  | _ => none

def decodeDaily (v : JVal) : Option DailyDocketCheckpoint :=
  match v with
  | .jobj fs =>
      match jlookup fs "last_court_code", jlookup fs "completed_courts",
            jlookup fs "completed" with
      | some cv, some (.jarr xs), some (.jbool b) =>
          match decodeOptStr cv, decodeStrings xs with
          | some code, some courts =>
              some { last_court_code := code, completed_courts := courts,
                     completed := b }
          | _, _ => none
      | _, _, _ => none
  | _ => none

def decodeCheckpoint (v : JVal) : Option CheckpointData :=
  match v with
  | .jobj fs =>
      match jlookup fs "pending", jlookup fs "conviction",
            jlookup fs "daily_docket", jlookup fs "last_update" with
      | some pv, some cv, some dv, some uv =>
          match decodeSearch pv, decodeSearch cv, decodeDaily dv,
                decodeOptStr uv with
          | some pc, some cc, some dd, some lu =>
              some { pending := pc, conviction := cc, daily_docket := dd,
                     last_update := lu }
          | _, _, _, _ => none
      | _, _, _, _ => none
  | _ => none

/-- `save_checkpoint`: stamp `last_update = now` and serialize the whole
dict. -/
def saveCheckpoint (cp : CheckpointData) (now : String) : JVal :=
  encodeCheckpoint { cp with last_update := some now }

/-- `load_checkpoint`: parse the persisted document when one exists,
otherwise (or if reading fails) return the fresh default. -/
def loadCheckpoint (file : Option JVal) : CheckpointData :=
  match file with
  | some v => (decodeCheckpoint v).getD defaultCheckpoint
  | none => defaultCheckpoint

theorem decodeStrings_encode (cs : List String) :
    decodeStrings (cs.map JVal.jstr) = some cs := by
  induction cs with
  | nil => rfl
  | cons c rest ih =>
    show decodeStrings (JVal.jstr c :: rest.map JVal.jstr) = _
    rw [decodeStrings, ih]

theorem decodeOptStr_encode (o : Option String) :
    decodeOptStr (encodeOptStr o) = some o := by
  cases o <;> rfl

theorem decodeSearch_encode (sc : SearchCheckpoint) :
    decodeSearch (encodeSearch sc) = some sc := by
  obtain ⟨lp, lh, co, tp⟩ := sc
  cases lh <;>
    simp [decodeSearch, encodeSearch, jlookup, decodeOptStr, encodeOptStr,
      List.find?]

theorem decodeDaily_encode (d : DailyDocketCheckpoint) :
    decodeDaily (encodeDaily d) = some d := by
  obtain ⟨cc, courts, co⟩ := d
  cases cc <;>
    simp [decodeDaily, encodeDaily, jlookup, decodeOptStr, encodeOptStr,
      decodeStrings_encode, List.find?]

theorem decodeCheckpoint_encode (cp : CheckpointData) :
    decodeCheckpoint (encodeCheckpoint cp) = some cp := by
  obtain ⟨pc, cc, dd, lu⟩ := cp
  simp [decodeCheckpoint, encodeCheckpoint, jlookup, List.find?,
    decodeSearch_encode, decodeDaily_encode, decodeOptStr_encode]

/-- C8.  Persisting the checkpoint (which stamps `last_update`) and
loading it back yields identical per-category field values for every
category — `pending`, `conviction` (lastPage, lastItemRef, completed,
totalProcessed) and the daily-docket entry; and when no persisted state
exists, `load` returns the fresh default with `last_page = 0`,
`completed = false`, `total_processed = 0` for each search category. -/
theorem checkpoint_roundtrip (cp : CheckpointData) (now : String) :
    (loadCheckpoint (some (saveCheckpoint cp now))).pending = cp.pending ∧
    (loadCheckpoint (some (saveCheckpoint cp now))).conviction = cp.conviction ∧
    (loadCheckpoint (some (saveCheckpoint cp now))).daily_docket = cp.daily_docket ∧
    (loadCheckpoint (some (saveCheckpoint cp now))).last_update = some now ∧
    loadCheckpoint none = defaultCheckpoint ∧
    defaultCheckpoint.pending.last_page = 0 ∧
    defaultCheckpoint.pending.completed = false ∧
    defaultCheckpoint.pending.total_processed = 0 ∧
    defaultCheckpoint.conviction.last_page = 0 ∧
    defaultCheckpoint.conviction.completed = false ∧
    defaultCheckpoint.conviction.total_processed = 0 := by
  have h : loadCheckpoint (some (saveCheckpoint cp now)) =
      { cp with last_update := some now } := by
    show (decodeCheckpoint (encodeCheckpoint { cp with last_update := some now })).getD
      defaultCheckpoint = _
    rw [decodeCheckpoint_encode]
    rfl
  rw [h]
  exact ⟨rfl, rfl, rfl, rfl, rfl, rfl, rfl, rfl, rfl, rfl, rfl⟩

/-! ## Pagination traversal (`docket.py` / `checkpoint.py`)

`Search.get_records` walks the result grid: starting from the first
response it loops `while f'<span>{page}</span>' in resp.text and count <
max_records`, processes the rows (stopping at the record cap), re-scrapes
the postback payload from the *current* response, posts it, and increments
`page`.  The server exchange — `get_payload(resp.text)` + the `__EVENTTARGET`
control scraped after the current page marker, POSTed via
`ensure_connection` — is abstracted as the oracle `advance markup page`,
which yields the next page's markup *only* from the current page's markup:
exactly the serial postback dependency of the source.  `extract markup` is
the list of non-sealed records taken from the page.  The Python loop has no
fuel; the embedding adds an explicit fuel and flags fuel exhaustion with
`stopped = false`, so every `stopped = true` outcome corresponds to a real
termination of the loop. -/

/-- Decimal rendering of the page number, as in `f'<span>{page}</span>'`. -/
def natDigitsAux : Nat → Nat → List Char
  | 0, _ => []
  | _ + 1, 0 => []
  | fuel + 1, n + 1 =>
      natDigitsAux fuel ((n + 1) / 10) ++ [Char.ofNat (48 + (n + 1) % 10)]

def natToString (n : Nat) : String :=
  if n = 0 then "0" else String.mk (natDigitsAux n n)

def pageMarker (page : Nat) : String :=
  "<span>" ++ natToString page ++ "</span>"

def isPrefixChars : List Char → List Char → Bool
  | [], _ => true
  | _ :: _, [] => false
  | p :: ps, c :: cs => p = c && isPrefixChars ps cs

def containsChars (pat : List Char) : List Char → Bool
  | [] => isPrefixChars pat []
  | c :: cs => isPrefixChars pat (c :: cs) || containsChars pat cs

/-- Python's `pattern in text`. -/
def hasMarker (markup : String) (page : Nat) : Bool :=
  containsChars (pageMarker page).data markup.data

/-- `count >= max_records` (`max_records` is `inf` when no cap is
configured). -/
def capReached (cap : Option Nat) (count : Nat) : Bool :=
  match cap with
  | some m => decide (m ≤ count)
  | none => false

/-- The row loop: records are appended until the cap is hit
(`if count >= max_records: break`). -/
def takeUpTo {α : Type} (cap : Option Nat) (count : Nat) (rs : List α) : List α :=
  match cap with
  | some m => rs.take (m - count)
  | none => rs

structure TravResult (α : Type) where
  results : List α
  fetched : List Nat
  finalPage : Nat
  finalMarkup : String
  finalCount : Nat
  stopped : Bool
deriving DecidableEq, Repr

/-- Record that one more page was fetched before the recursive run. -/
def consFetched {α : Type} (p : Nat) (r : TravResult α) : TravResult α :=
  { r with fetched := p :: r.fetched }

/-- The body of `Search.get_records` (and of the loop of
`get_records_with_checkpoint`, which runs with `cap = none`): `fetched`
records the page numbers fetched *after* the page currently in hand, in
fetch order. -/
def getRecordsLoop {α : Type} (advance : String → Nat → String)
    (extract : String → List α) (cap : Option Nat) :
    Nat → Nat → String → Nat → List α → TravResult α
  | 0, page, markup, count, acc =>
      { results := acc, fetched := [], finalPage := page, finalMarkup := markup,
        finalCount := count, stopped := false }
  | fuel + 1, page, markup, count, acc =>
      if hasMarker markup page && !capReached cap count then
        if capReached cap (count + (takeUpTo cap count (extract markup)).length) then
          { results := acc ++ takeUpTo cap count (extract markup), fetched := [],
            finalPage := page, finalMarkup := markup,
            finalCount := count + (takeUpTo cap count (extract markup)).length,
            stopped := true }
        else
          consFetched (page + 1)
            (getRecordsLoop advance extract cap fuel (page + 1) (advance markup page)
              (count + (takeUpTo cap count (extract markup)).length)
              (acc ++ takeUpTo cap count (extract markup)))
      else
        { results := acc, fetched := [], finalPage := page, finalMarkup := markup,
          finalCount := count, stopped := true }

/-- `Search.get_records`: page 1 is fetched by the initial search POST
(`initMarkup`), then the loop runs. -/
def getRecords {α : Type} (advance : String → Nat → String)
    (extract : String → List α) (cap : Option Nat) (fuel : Nat)
    (initMarkup : String) : TravResult α :=
  getRecordsLoop advance extract cap fuel 1 initMarkup 0 []

/-- The resume replay of `get_records_with_checkpoint`: `for skip_page in
range(2, start_page + 1)` derives the postback token from the page
currently in hand (`skip_page - 1`) and fetches `skip_page`.  Returns the
final markup and the replayed page numbers in fetch order. -/
def replayAux (advance : String → Nat → String) :
    Nat → Nat → String → String × List Nat
  | _, 0, markup => (markup, [])
  | curPage, n + 1, markup =>
      let r := replayAux advance (curPage + 1) n (advance markup curPage)
      (r.1, (curPage + 1) :: r.2)

/-- `get_records_with_checkpoint`: resume from the checkpointed page
(`0` or `1` meaning a fresh start), replaying pages `2..startPage` in
order first; the loop itself runs без cap and with the checkpointed
`total_processed` as the running count. -/
def getRecordsWithCheckpoint {α : Type} (advance : String → Nat → String)
    (extract : String → List α) (fuel : Nat) (initMarkup : String)
    (startPage count0 : Nat) : List Nat × TravResult α :=
  let page0 := if startPage > 0 then startPage else 1
  let rep := if startPage > 1 then replayAux advance 1 (startPage - 1) initMarkup
             else (initMarkup, [])
  (rep.2, getRecordsLoop advance extract none fuel page0 rep.1 count0 [])

theorem getRecordsLoop_fetched_range {α : Type} (advance : String → Nat → String)
    (extract : String → List α) (cap : Option Nat) :
    ∀ (fuel page : Nat) (markup : String) (count : Nat) (acc : List α),
      (getRecordsLoop advance extract cap fuel page markup count acc).fetched =
        List.range' (page + 1)
          (getRecordsLoop advance extract cap fuel page markup count acc).fetched.length := by
  intro fuel
  induction fuel with
  | zero => intro page markup count acc; rfl
  | succ fuel ih =>
    intro page markup count acc
    rw [getRecordsLoop]
    by_cases hcond : (hasMarker markup page && !capReached cap count) = true
    · rw [if_pos hcond]
      by_cases hcap : capReached cap
          (count + (takeUpTo cap count (extract markup)).length) = true
      · rw [if_pos hcap]
        rfl
      · rw [if_neg hcap]
        show (page + 1) :: _ = _
        rw [ih (page + 1) (advance markup page)
          (count + (takeUpTo cap count (extract markup)).length)
          (acc ++ takeUpTo cap count (extract markup))]
        rfl
    · rw [if_neg hcond]
      rfl

theorem replayAux_trace (advance : String → Nat → String) :
    ∀ (n curPage : Nat) (markup : String),
      (replayAux advance curPage n markup).2 = List.range' (curPage + 1) n := by
  intro n
  induction n with
  | zero => intro curPage markup; rfl
  | succ n ih =>
    intro curPage markup
    rw [replayAux]
    show (curPage + 1) :: (replayAux advance (curPage + 1) n (advance markup curPage)).2 = _
    rw [ih (curPage + 1) (advance markup curPage)]
    rfl

theorem getRecordsLoop_stop_reason {α : Type} (advance : String → Nat → String)
    (extract : String → List α) (cap : Option Nat) :
    ∀ (fuel page : Nat) (markup : String) (count : Nat) (acc : List α),
      (getRecordsLoop advance extract cap fuel page markup count acc).stopped = true →
      hasMarker (getRecordsLoop advance extract cap fuel page markup count acc).finalMarkup
          (getRecordsLoop advance extract cap fuel page markup count acc).finalPage = false ∨
        capReached cap
          (getRecordsLoop advance extract cap fuel page markup count acc).finalCount = true := by
  intro fuel
  induction fuel with
  | zero =>
    intro page markup count acc h
    exact absurd h (by rw [getRecordsLoop]; simp)
  | succ fuel ih =>
    intro page markup count acc
    rw [getRecordsLoop]
    by_cases hcond : (hasMarker markup page && !capReached cap count) = true
    · rw [if_pos hcond]
      by_cases hcap : capReached cap
          (count + (takeUpTo cap count (extract markup)).length) = true
      · rw [if_pos hcap]
        rintro -
        exact Or.inr hcap
      · rw [if_neg hcap]
        intro h
        exact ih (page + 1) (advance markup page)
          (count + (takeUpTo cap count (extract markup)).length)
          (acc ++ takeUpTo cap count (extract markup)) h
    · rw [if_neg hcond]
      rintro -
      show hasMarker markup page = false ∨ capReached cap count = true
      rw [Bool.and_eq_true, Bool.not_eq_true'] at hcond
      by_cases hm : hasMarker markup page = true
      · refine Or.inr ?_
        by_contra hcc
        exact hcond ⟨hm, Bool.eq_false_iff.mpr hcc⟩
      · exact Or.inl (Bool.eq_false_iff.mpr hm)

/-- C6.  In every traversal of one category, pages are fetched in strictly
increasing, consecutive page-number order: the trace of fetched pages is
`1, 2, 3, …` for a fresh `get_records` run (so page `N` is never fetched
without page `N − 1` having been fetched earlier in the same traversal);
on resume from checkpointed page `startPage ≥ 2`, pages `2..startPage` are
replayed in order before the loop continues at `startPage`, the combined
trace again being the consecutive interval starting at page 1.  The loop
stops — returning the accumulated results rather than an error — exactly
when the fetched page's markup does not contain the marker
`<span>{page}</span>` for the current page index, or earlier when the
configured record cap is reached: every terminated run ends for one of
those two reasons, and conversely a state with a missing marker or an
exhausted cap stops immediately with the results accumulated so far. -/
theorem traversal_sequential (α : Type) (advance : String → Nat → String)
    (extract : String → List α) (cap : Option Nat) (fuel : Nat)
    (initMarkup : String) (startPage count0 : Nat) :
    (1 :: (getRecords advance extract cap fuel initMarkup).fetched =
      List.range' 1
        ((getRecords advance extract cap fuel initMarkup).fetched.length + 1)) ∧
    (∀ (page : Nat) (markup : String) (count : Nat) (acc : List α),
      (getRecordsLoop advance extract cap fuel page markup count acc).fetched =
        List.range' (page + 1)
          (getRecordsLoop advance extract cap fuel page markup count acc).fetched.length) ∧
    (startPage ≥ 2 →
      (getRecordsWithCheckpoint advance extract fuel initMarkup startPage count0).1 =
        List.range' 2 (startPage - 1)) ∧
    (startPage ≥ 2 →
      1 :: ((getRecordsWithCheckpoint advance extract fuel initMarkup startPage count0).1 ++
        (getRecordsWithCheckpoint advance extract fuel initMarkup startPage count0).2.fetched) =
      List.range' 1 (startPage +
        (getRecordsWithCheckpoint advance extract fuel initMarkup startPage count0).2.fetched.length)) ∧
    (∀ (page : Nat) (markup : String) (count : Nat) (acc : List α),
      (getRecordsLoop advance extract cap fuel page markup count acc).stopped = true →
      hasMarker (getRecordsLoop advance extract cap fuel page markup count acc).finalMarkup
          (getRecordsLoop advance extract cap fuel page markup count acc).finalPage = false ∨
        capReached cap
          (getRecordsLoop advance extract cap fuel page markup count acc).finalCount = true) ∧
    (∀ (page : Nat) (markup : String) (count : Nat) (acc : List α),
      (hasMarker markup page = false ∨ capReached cap count = true) →
      getRecordsLoop advance extract cap (fuel + 1) page markup count acc =
        { results := acc, fetched := [], finalPage := page, finalMarkup := markup,
          finalCount := count, stopped := true }) := by
  refine ⟨?_, getRecordsLoop_fetched_range advance extract cap fuel, ?_, ?_, ?_, ?_⟩
  · show 1 :: (getRecordsLoop advance extract cap fuel 1 initMarkup 0 []).fetched = _
    rw [getRecordsLoop_fetched_range advance extract cap fuel 1 initMarkup 0 []]
    rfl
  · intro hsp
    show (if startPage > 1 then replayAux advance 1 (startPage - 1) initMarkup
        else (initMarkup, [])).2 = _
    rw [if_pos (by omega), replayAux_trace advance (startPage - 1) 1 initMarkup]
  · intro hsp
    have h1 : (getRecordsWithCheckpoint advance extract fuel initMarkup startPage count0).1 =
        List.range' 2 (startPage - 1) := by
      show (if startPage > 1 then replayAux advance 1 (startPage - 1) initMarkup
          else (initMarkup, [])).2 = _
      rw [if_pos (by omega), replayAux_trace advance (startPage - 1) 1 initMarkup]
    have h2 : (getRecordsWithCheckpoint advance extract fuel initMarkup startPage count0).2 =
        getRecordsLoop advance extract none fuel startPage
          (if startPage > 1 then replayAux advance 1 (startPage - 1) initMarkup
            else (initMarkup, [])).1 count0 [] := by
      show getRecordsLoop advance extract none fuel
          (if startPage > 0 then startPage else 1) _ count0 [] = _
      rw [if_pos (by omega)]
    rw [h1, h2, getRecordsLoop_fetched_range advance extract none fuel startPage]
    have hr1 : (1 : Nat) :: List.range' 2 (startPage - 1) = List.range' 1 (startPage - 1 + 1) := rfl
    have hr2 : startPage - 1 + 1 = startPage := by omega
    set L := (getRecordsLoop advance extract none fuel startPage
      (if startPage > 1 then replayAux advance 1 (startPage - 1) initMarkup
        else (initMarkup, [])).1 count0 []).fetched.length with hL
    show 1 :: (List.range' 2 (startPage - 1) ++ List.range' (startPage + 1) L) = _
    have hcat : List.range' 2 (startPage - 1) ++ List.range' (startPage + 1) L =
        List.range' 2 (L + (startPage - 1)) := by
      have hx := List.range'_append 2 (startPage - 1) L 1
      simp only [Nat.one_mul] at hx
      rw [show 2 + (startPage - 1) = startPage + 1 by omega] at hx
      exact hx
    rw [hcat]
    simp only [List.length_range']
    show List.range' 1 (L + (startPage - 1) + 1) = _
    congr 1
    omega
  · exact getRecordsLoop_stop_reason advance extract cap fuel
  · intro page markup count acc h
    rw [getRecordsLoop]
    rw [if_neg ?_]
    rcases h with h | h
    · rw [h]
      simp
    · rw [h]
      simp

/-- Witness for the C6 theorem: resuming from checkpointed page 3 replays
pages `[2, 3]` in order, and a page whose markup lacks the
`<span>2</span>` marker stops the loop immediately with the accumulated
results. -/
theorem traversal_sequential_witness :
    (getRecordsWithCheckpoint (fun _ _ => "") (fun _ => ([] : List Unit)) 2 "m" 3 0).1 =
      [2, 3] ∧
    getRecordsLoop (fun _ _ => "") (fun _ => ([] : List Unit)) none 3 2 "" 0 [] =
      { results := [], fetched := [], finalPage := 2, finalMarkup := "",
        finalCount := 0, stopped := true } := by
  have h := traversal_sequential Unit (fun _ _ => "") (fun _ => []) none 2 "m" 3 0
  constructor
  · have h3 := h.2.2.1 (by omega)
    rw [h3]
    decide
  · exact h.2.2.2.2.2 2 "" 0 [] (Or.inl (by decide))

/-! ## Record fetch retries (`docket.py`, `Record.get`)

`Record.get` runs `while retry_count < max_retries` with `max_retries =
3`.  Inside one iteration (one *attempt*): a non-200 status or an invalid
body (`Session Timeout`/`Error`/short response) increments `retry_count`
and retries; an exception caught by the outer `except` also increments
`retry_count` and retries (returning `{}` once the budget is exhausted);
a missing title, an unrecognized record type, or a parser exception
returns the degraded empty dict `{}`; a successful parse returns the
parsed record.  After the loop, `{}` is returned.  `ensure_connection`
inside the attempt retries transport failures forever, so one attempt
always yields one of the outcomes below. -/

inductive FetchOutcome (α : Type) where
  | httpError
  | invalidBody
  | caughtException
  | noTitle
  | unknownType
  | parseFail
  | parseOk (r : α)
deriving DecidableEq

/-- Outcomes that consume a retry and loop again. -/
def isRetryable {α : Type} : FetchOutcome α → Bool
  | .httpError => true
  | .invalidBody => true
  | .caughtException => true
  | _ => false

inductive GetResult (α : Type) where
  | ok (r : α)
  | emptyRecord
deriving DecidableEq

/-- The retry loop of `Record.get`; `outcome i` is what the `i`-th attempt
(0-based) observes, `remaining = max_retries - retry_count`.  Returns the
result together with the number of attempts actually made. -/
def recordGetAux {α : Type} (outcome : Nat → FetchOutcome α) :
    Nat → Nat → GetResult α × Nat
  | _, 0 => (.emptyRecord, 0)
  | attempt, remaining + 1 =>
      match outcome attempt with
      | .parseOk r => (.ok r, 1)
      | .noTitle => (.emptyRecord, 1)
      | .unknownType => (.emptyRecord, 1)
      | .parseFail => (.emptyRecord, 1)
      | _ =>
          ((recordGetAux outcome (attempt + 1) remaining).1,
            (recordGetAux outcome (attempt + 1) remaining).2 + 1)

/-- `Record.get` with `max_retries = 3`. -/
def recordGet {α : Type} (outcome : Nat → FetchOutcome α) : GetResult α × Nat :=
  recordGetAux outcome 0 3

theorem recordGetAux_attempts {α : Type} (outcome : Nat → FetchOutcome α) :
    ∀ (remaining attempt : Nat),
      (recordGetAux outcome attempt remaining).2 ≤ remaining := by
  intro remaining
  induction remaining with
  | zero => intro attempt; exact Nat.le_refl 0
  | succ remaining ih =>
    intro attempt
    rw [recordGetAux]
    cases outcome attempt <;> simp <;> exact ih (attempt + 1)

theorem recordGetAux_all_retryable {α : Type} (outcome : Nat → FetchOutcome α) :
    ∀ (remaining attempt : Nat),
      (∀ i, attempt ≤ i → i < attempt + remaining → isRetryable (outcome i) = true) →
      recordGetAux outcome attempt remaining = (.emptyRecord, remaining) := by
  intro remaining
  induction remaining with
  | zero => intro attempt hall; rfl
  | succ remaining ih =>
    intro attempt hall
    have h0 : isRetryable (outcome attempt) = true :=
      hall attempt (Nat.le_refl attempt) (by omega)
    rw [recordGetAux]
    cases hoc : outcome attempt <;> rw [hoc] at h0 <;> try cases h0
    all_goals
      rw [ih (attempt + 1) (fun i hi1 hi2 => hall i (by omega) (by omega))]

theorem recordGetAux_ok {α : Type} (outcome : Nat → FetchOutcome α) :
    ∀ (remaining attempt : Nat) (r : α),
      (recordGetAux outcome attempt remaining).1 = .ok r →
      ∃ i, attempt ≤ i ∧ i < attempt + remaining ∧ outcome i = .parseOk r := by
  intro remaining
  induction remaining with
  | zero => intro attempt r h; cases h
  | succ remaining ih =>
    intro attempt r h
    rw [recordGetAux] at h
    cases hoc : outcome attempt <;> rw [hoc] at h
    case parseOk r2 =>
      obtain rfl : r2 = r := by cases h; rfl
      exact ⟨attempt, Nat.le_refl attempt, by omega, hoc⟩
    case noTitle => cases h
    case unknownType => cases h
    case parseFail => cases h
    all_goals
      obtain ⟨i, hi1, hi2, hi3⟩ := ih (attempt + 1) r h
      exact ⟨i, by omega, by omega, hi3⟩

/-- C10.  `Record.get` makes at most 3 attempts for a record href; when
all 3 attempts fail with retryable errors it returns the degraded empty
record (after exactly 3 attempts) instead of raising; an unrecognized
record type on the first attempt likewise yields the empty record at
once; and a non-empty result can only arise from a successful parse on
one of the at most 3 attempts.  Every path returns a value — the function
is total — so a single failing record never propagates an exception to
the page or category traversal that called it. -/
theorem recordGet_retry_cap (α : Type) (outcome : Nat → FetchOutcome α) :
    (recordGet outcome).2 ≤ 3 ∧
    ((∀ i, i < 3 → isRetryable (outcome i) = true) →
      recordGet outcome = (.emptyRecord, 3)) ∧
    (∀ r, (recordGet outcome).1 = .ok r → ∃ i, i < 3 ∧ outcome i = .parseOk r) ∧
    (outcome 0 = .unknownType → recordGet outcome = (.emptyRecord, 1)) := by
  refine ⟨recordGetAux_attempts outcome 3 0, ?_, ?_, ?_⟩
  · intro hall
    exact recordGetAux_all_retryable outcome 3 0
      (fun i hi1 hi2 => hall i (by omega))
  · intro r h
    obtain ⟨i, -, hi2, hi3⟩ := recordGetAux_ok outcome 3 0 r h
    exact ⟨i, by omega, hi3⟩
  · intro h0
    show recordGetAux outcome 0 3 = _
    rw [recordGetAux, h0]

/-- Witness for the C10 theorem: three consecutive HTTP failures yield
the empty record after exactly 3 attempts, and an unrecognized record
type yields it after a single attempt. -/
theorem recordGet_retry_cap_witness :
    recordGet (fun _ => (FetchOutcome.httpError : FetchOutcome Unit)) =
      (.emptyRecord, 3) ∧
    recordGet (fun _ => (FetchOutcome.unknownType : FetchOutcome Unit)) =
      (.emptyRecord, 1) := by
  constructor
  · exact (recordGet_retry_cap Unit (fun _ => .httpError)).2.1 (fun i hi => rfl)
  · exact (recordGet_retry_cap Unit (fun _ => .unknownType)).2.2.2 rfl

end Crime
